import Mathlib

/-
Verification of the sankey-report application core.

This file is a shallow embedding, in Lean 4, of the pure computational core
of the sankey-report repository: the flow classifier, the graph builder, the
offset clamp, the parent grouping, the sibling reorder machinery, the balance
checker and the settings migration.  Numbers are modelled as rationals
(every JavaScript number that actually occurs in these computations is a
finite double; rationals make the arithmetic exact and decidable).  JavaScript
strings are Lean strings; String.prototype.toLowerCase is embedded for the
ASCII Latin and Cyrillic ranges, which cover the whole vocabulary the
classifier matches against; String.prototype.localeCompare is embedded as
code-point lexical comparison; Map / Record objects are embedded as
association lists with in-place update, mirroring insertion-order semantics.
-/

namespace SankeyReport

/-- JavaScript simple lowercase mapping (String.prototype.toLowerCase),
embedded on the ASCII Latin range, the Cyrillic range U+0410..U+042F and
Ё (U+0401); identity elsewhere. -/
def jsToLowerChar (c : Char) : Char :=
  if 65 ≤ c.toNat ∧ c.toNat ≤ 90 then Char.ofNat (c.toNat + 32)
  else if 0x410 ≤ c.toNat ∧ c.toNat ≤ 0x42F then Char.ofNat (c.toNat + 32)
  else if c.toNat = 0x401 then Char.ofNat 0x451
  else c

/-- Lowercasing of a whole string, as `source.toLowerCase()` does. -/
def toLowerStr (s : String) : String :=
  String.mk (s.data.map jsToLowerChar)

/-- Whether the character list `s` starts with `pat`. -/
def startsWithL : List Char → List Char → Bool
  | [], _ => true
  | _ :: _, [] => false
  | p :: ps, c :: cs => p = c && startsWithL ps cs

/-- Whether `pat` occurs as a contiguous run inside `s`. -/
def hasSubstr : List Char → List Char → Bool
  | _, [] => true
  | [], _ :: _ => false
  | c :: rest, p :: ps => startsWithL (p :: ps) (c :: rest) || hasSubstr rest (p :: ps)

/-- `s.includes(pat)` of JavaScript: substring containment. -/
def jsIncludes (s pat : String) : Bool :=
  hasSubstr s.data pat.data

/-- The four flow categories of `src/types.ts` (`FlowType`). -/
inductive FlowType where
  | revenue
  | adjacentRevenue
  | profit
  | expense
deriving DecidableEq, Repr

/-- `determineFlowType` from `src/utils/sankeyHelpers.ts` lines 27-48,
transcribed clause for clause. -/
def determineFlowType (source target : String) : FlowType :=
  if jsIncludes (toLowerStr source) "прочи"
      && (jsIncludes (toLowerStr source) "доход" || jsIncludes (toLowerStr source) "выручка") then
    FlowType.adjacentRevenue
  else if jsIncludes (toLowerStr source) "выручка" || jsIncludes (toLowerStr source) "доход" then
    FlowType.revenue
  else if jsIncludes (toLowerStr target) "прибыль" || jsIncludes (toLowerStr target) "ebitda"
      || jsIncludes (toLowerStr target) "чистая" then
    FlowType.profit
  else
    FlowType.expense

/-- The classifier as the spec words it (section 4.1): first-match priority
adjacentRevenue (miscellaneous qualifier together with an income or revenue
term in the source), then revenue (revenue or income term in the source),
then profit (profit, EBITDA or net-result term in the target), then the
expense default. -/
def classifySpec (source target : String) : FlowType :=
  if jsIncludes (toLowerStr source) "прочи"
      && (jsIncludes (toLowerStr source) "доход" || jsIncludes (toLowerStr source) "выручка") then
    FlowType.adjacentRevenue
  else if jsIncludes (toLowerStr source) "выручка" || jsIncludes (toLowerStr source) "доход" then
    FlowType.revenue
  else if jsIncludes (toLowerStr target) "прибыль" || jsIncludes (toLowerStr target) "ebitda"
      || jsIncludes (toLowerStr target) "чистая" then
    FlowType.profit
  else
    FlowType.expense

/-- `calculateChange` from `src/utils/sankeyHelpers.ts` lines 102-106. -/
structure Change where
  value : ℚ
  percent : ℚ
deriving DecidableEq, Repr

def calculateChange (current previous : ℚ) : Change :=
  { value := current - previous
  , percent := if previous ≠ 0 then (current - previous) / previous * 100 else 0 }

/-- Whitespace characters stripped by `String.prototype.trim`, embedded for
the ASCII whitespace set plus NBSP and the BOM. -/
def isWsChar (c : Char) : Bool :=
  c = ' ' || c = '\t' || c = '\n' || c = '\r' || c.toNat = 0x0b || c.toNat = 0x0c
    || c.toNat = 0xa0 || c.toNat = 0xfeff

/-- `s.trim()` of JavaScript: strip whitespace from both ends. -/
def jsTrim (s : String) : String :=
  String.mk (((s.data.dropWhile isWsChar).reverse.dropWhile isWsChar).reverse)

/-- A table row, `FlowRow` of `src/types.ts`. -/
structure FlowRow where
  id : String
  source : String
  target : String
  currentPeriod : ℚ
  previousPeriod : ℚ
deriving DecidableEq, Repr

/-- Row validity as used by every call site
(`r.source.trim() && r.target.trim() && r.currentPeriod > 0`). -/
def validRow (r : FlowRow) : Bool :=
  !(jsTrim r.source).isEmpty && !(jsTrim r.target).isEmpty && decide (0 < r.currentPeriod)

/-- Append a string to the accumulator unless already present: the effect of
`Set.prototype.add` on a JavaScript `Set`, which keeps insertion order. -/
def addIfAbsent (acc : List String) (s : String) : List String :=
  if s ∈ acc then acc else acc ++ [s]

/-- One `if (x.trim()) nodeNames.add(x.trim())` step of `prepareNodesAndLinks`. -/
def addName (acc : List String) (s : String) : List String :=
  if (jsTrim s).isEmpty then acc else addIfAbsent acc (jsTrim s)

/-- The node-name accumulation loop of `prepareNodesAndLinks`
(`src/utils/sankeyHelpers.ts` lines 67-72): every row contributes its trimmed
source and target when non-empty, regardless of the row's period values. -/
def nodeNames (rows : List FlowRow) : List String :=
  rows.foldl (fun acc r => addName (addName acc r.source) r.target) []

structure NodeRef where
  name : String
  id : String
deriving DecidableEq, Repr

structure Link where
  source : Nat
  target : Nat
  value : ℚ
  flowType : FlowType
  currentValue : ℚ
  previousValue : ℚ
deriving DecidableEq, Repr

/-- One element of the `links` map of `prepareNodesAndLinks` (lines 84-93).
`List.indexOf` models `nodeIndex.get(...)`: for the rows that survive the
filter both trimmed names are in `names`, so the lookup always hits. -/
def mkLink (names : List String) (r : FlowRow) : Link :=
  { source := names.indexOf (jsTrim r.source)
  , target := names.indexOf (jsTrim r.target)
  , value := r.currentPeriod
  , flowType := determineFlowType r.source r.target
  , currentValue := r.currentPeriod
  , previousValue := r.previousPeriod }

structure Graph where
  nodes : List NodeRef
  links : List Link
deriving DecidableEq, Repr

/-- `prepareNodesAndLinks` from `src/utils/sankeyHelpers.ts` lines 63-96. -/
def prepareNodesAndLinks (rows : List FlowRow) : Graph :=
  let names := nodeNames rows
  { nodes := names.enum.map (fun p => { name := p.2, id := "node-" ++ toString p.1 })
  , links := (rows.filter validRow).map (mkLink names) }

/-- The names contributed by a single row, in scan order. -/
def rowNames (r : FlowRow) : List String :=
  (if (jsTrim r.source).isEmpty then [] else [jsTrim r.source])
    ++ (if (jsTrim r.target).isEmpty then [] else [jsTrim r.target])

/-- First-seen order across rows, as the spec words it: scan every row's
trimmed source then target and keep the first occurrence of each name. -/
def firstSeenNames (rows : List FlowRow) : List String :=
  List.foldl addIfAbsent [] (rows.map rowNames).flatten

theorem mem_addIfAbsent (acc : List String) (s x : String) :
    x ∈ addIfAbsent acc s ↔ x ∈ acc ∨ x = s := by
  unfold addIfAbsent
  split_ifs with h
  · exact ⟨Or.inl, fun hx => hx.elim id (fun e => e ▸ h)⟩
  · simp

theorem mem_foldl_addIfAbsent (l acc : List String) (x : String) :
    x ∈ List.foldl addIfAbsent acc l ↔ x ∈ acc ∨ x ∈ l := by
  induction l generalizing acc with
  | nil => simp
  | cons a t ih =>
      rw [List.foldl_cons, ih, mem_addIfAbsent]
      simp [or_assoc]

theorem nodup_addIfAbsent (acc : List String) (s : String) (h : acc.Nodup) :
    (addIfAbsent acc s).Nodup := by
  unfold addIfAbsent
  split_ifs with hs
  · exact h
  · simp [List.nodup_append, h, hs]

theorem nodup_foldl_addIfAbsent (l acc : List String) (h : acc.Nodup) :
    (List.foldl addIfAbsent acc l).Nodup := by
  induction l generalizing acc with
  | nil => exact h
  | cons a t ih => exact ih _ (nodup_addIfAbsent _ _ h)

theorem foldl_rowNames (acc : List String) (r : FlowRow) :
    List.foldl addIfAbsent acc (rowNames r) = addName (addName acc r.source) r.target := by
  unfold rowNames addName
  split_ifs <;> simp [List.foldl]

theorem nodeNames_go (rows : List FlowRow) (acc : List String) :
    rows.foldl (fun a r => addName (addName a r.source) r.target) acc
      = List.foldl addIfAbsent acc (rows.map rowNames).flatten := by
  induction rows generalizing acc with
  | nil => rfl
  | cons r t ih =>
      rw [List.foldl_cons, ih, List.map_cons, List.flatten_cons, List.foldl_append,
        foldl_rowNames]

theorem nodeNames_eq_firstSeen (rows : List FlowRow) :
    nodeNames rows = firstSeenNames rows :=
  nodeNames_go rows []

theorem nodeNames_nodup (rows : List FlowRow) : (nodeNames rows).Nodup := by
  rw [nodeNames_eq_firstSeen]
  exact nodup_foldl_addIfAbsent _ _ List.nodup_nil

theorem mem_rowNames (r : FlowRow) (x : String) :
    x ∈ rowNames r
      ↔ ((jsTrim r.source).isEmpty = false ∧ jsTrim r.source = x)
        ∨ ((jsTrim r.target).isEmpty = false ∧ jsTrim r.target = x) := by
  unfold rowNames
  cases hs : (jsTrim r.source).isEmpty <;> cases ht : (jsTrim r.target).isEmpty <;>
    simp [hs, ht, eq_comm]

theorem mem_nodeNames (rows : List FlowRow) (x : String) :
    x ∈ nodeNames rows
      ↔ ∃ r ∈ rows,
          ((jsTrim r.source).isEmpty = false ∧ jsTrim r.source = x)
          ∨ ((jsTrim r.target).isEmpty = false ∧ jsTrim r.target = x) := by
  rw [nodeNames_eq_firstSeen, firstSeenNames, mem_foldl_addIfAbsent]
  simp only [List.not_mem_nil, false_or, List.mem_flatten, List.mem_map]
  constructor
  · rintro ⟨l, ⟨r, hr, rfl⟩, hx⟩
    exact ⟨r, hr, (mem_rowNames r x).mp hx⟩
  · rintro ⟨r, hr, hx⟩
    exact ⟨rowNames r, ⟨r, hr, rfl⟩, (mem_rowNames r x).mpr hx⟩

theorem nodes_map_name (rows : List FlowRow) :
    (prepareNodesAndLinks rows).nodes.map NodeRef.name = nodeNames rows := by
  unfold prepareNodesAndLinks
  rw [List.map_map]
  exact List.enum_map_snd (nodeNames rows)

/-- C3 counterexample: the row ("A", "B", currentPeriod = 0) is invalid, the
builder emits no link for it, yet both of its node names do appear in the
node list, contradicting the claim that an invalid row introduces no node. -/
theorem invalidRow_adds_nodes_counterexample :
    validRow { id := "row-1", source := "A", target := "B", currentPeriod := 0, previousPeriod := 0 } = false
    ∧ (prepareNodesAndLinks [{ id := "row-1", source := "A", target := "B", currentPeriod := 0, previousPeriod := 0 }]).links = []
    ∧ (prepareNodesAndLinks [{ id := "row-1", source := "A", target := "B", currentPeriod := 0, previousPeriod := 0 }]).nodes.map NodeRef.name
        = ["A", "B"] := by
  refine ⟨by decide, by decide, ?_⟩
  rw [nodes_map_name]
  decide

/-- C3 amended: invalid rows are excluded from the link list — the links are
exactly one per valid row in order — and the builder is total (never
throws); however the node list is built from every row whose trimmed source
or target is non-empty, so an invalid row with non-empty names still
introduces its nodes. -/
theorem prepareNodesAndLinks_filters_links (rows : List FlowRow) :
    (prepareNodesAndLinks rows).links
        = (rows.filter validRow).map (mkLink (nodeNames rows))
    ∧ ∀ name, name ∈ (prepareNodesAndLinks rows).nodes.map NodeRef.name
        ↔ ∃ r ∈ rows,
            ((jsTrim r.source).isEmpty = false ∧ jsTrim r.source = name)
            ∨ ((jsTrim r.target).isEmpty = false ∧ jsTrim r.target = name) := by
  refine ⟨rfl, fun name => ?_⟩
  rw [nodes_map_name]
  exact mem_nodeNames rows name

/-- C5: for valid rows the node list holds each trimmed source/target name
exactly once (it is nodup and its membership is exactly the names of the
rows), it equals the first-seen scan order, and the link list is exactly one
link per row in row order, so duplicate source/target pairs produce parallel
links. -/
theorem prepareNodesAndLinks_valid_rows (rows : List FlowRow)
    (hv : ∀ r ∈ rows, validRow r = true) :
    (prepareNodesAndLinks rows).nodes.map NodeRef.name = firstSeenNames rows
    ∧ ((prepareNodesAndLinks rows).nodes.map NodeRef.name).Nodup
    ∧ (∀ name, name ∈ (prepareNodesAndLinks rows).nodes.map NodeRef.name
        ↔ ∃ r ∈ rows, jsTrim r.source = name ∨ jsTrim r.target = name)
    ∧ (prepareNodesAndLinks rows).links = rows.map (mkLink (nodeNames rows)) := by
  refine ⟨?_, ?_, ?_, ?_⟩
  · rw [nodes_map_name, nodeNames_eq_firstSeen]
  · rw [nodes_map_name]; exact nodeNames_nodup rows
  · intro name
    rw [nodes_map_name, mem_nodeNames]
    constructor
    · rintro ⟨r, hr, h⟩
      exact ⟨r, hr, h.elim (fun a => Or.inl a.2) (fun a => Or.inr a.2)⟩
    · rintro ⟨r, hr, h⟩
      have hval := hv r hr
      unfold validRow at hval
      simp only [Bool.and_eq_true, Bool.not_eq_true', decide_eq_true_eq] at hval
      exact ⟨r, hr, h.elim (fun a => Or.inl ⟨hval.1.1, a⟩) (fun a => Or.inr ⟨hval.1.2, a⟩)⟩
  · unfold prepareNodesAndLinks
    rw [List.filter_eq_self.mpr hv]

/-- Witness for C5 at two rows sharing the same source/target pair: the node
list is ["A", "B"] and two parallel links are produced. -/
theorem prepareNodesAndLinks_valid_rows_witness :
    (prepareNodesAndLinks
        [{ id := "r1", source := "A", target := "B", currentPeriod := 2, previousPeriod := 1 }, { id := "r2", source := "A", target := "B", currentPeriod := 3, previousPeriod := 0 }]).nodes.map NodeRef.name
      = firstSeenNames
        [{ id := "r1", source := "A", target := "B", currentPeriod := 2, previousPeriod := 1 }, { id := "r2", source := "A", target := "B", currentPeriod := 3, previousPeriod := 0 }]
    ∧ (((prepareNodesAndLinks
        [{ id := "r1", source := "A", target := "B", currentPeriod := 2, previousPeriod := 1 }, { id := "r2", source := "A", target := "B", currentPeriod := 3, previousPeriod := 0 }]).nodes.map NodeRef.name)).Nodup
    ∧ (∀ name, name ∈ (prepareNodesAndLinks
        [{ id := "r1", source := "A", target := "B", currentPeriod := 2, previousPeriod := 1 }, { id := "r2", source := "A", target := "B", currentPeriod := 3, previousPeriod := 0 }]).nodes.map NodeRef.name
        ↔ ∃ r ∈ [{ id := "r1", source := "A", target := "B", currentPeriod := 2, previousPeriod := 1 }, { id := "r2", source := "A", target := "B", currentPeriod := 3, previousPeriod := 0 }],
            jsTrim (FlowRow.source r) = name ∨ jsTrim (FlowRow.target r) = name)
    ∧ (prepareNodesAndLinks
        [{ id := "r1", source := "A", target := "B", currentPeriod := 2, previousPeriod := 1 }, { id := "r2", source := "A", target := "B", currentPeriod := 3, previousPeriod := 0 }]).links
      = List.map (mkLink (nodeNames
        [{ id := "r1", source := "A", target := "B", currentPeriod := 2, previousPeriod := 1 }, { id := "r2", source := "A", target := "B", currentPeriod := 3, previousPeriod := 0 }]))
        [{ id := "r1", source := "A", target := "B", currentPeriod := 2, previousPeriod := 1 }, { id := "r2", source := "A", target := "B", currentPeriod := 3, previousPeriod := 0 }] :=
  prepareNodesAndLinks_valid_rows
    [{ id := "r1", source := "A", target := "B", currentPeriod := 2, previousPeriod := 1 }, { id := "r2", source := "A", target := "B", currentPeriod := 3, previousPeriod := 0 }]
    (by decide)

/-- The frame data `getClampedOffset` closes over in `SankeyChart.tsx`:
canvas size, the fixed margins and the `linkWidthScale`-derived node scale. -/
structure ChartFrame where
  width : ℚ
  height : ℚ
  marginLeft : ℚ
  marginRight : ℚ
  marginTop : ℚ
  marginBottom : ℚ
  nodeScale : ℚ
deriving DecidableEq, Repr

/-- Base geometry of a laid-out node (`node.x0/x1/y0/y1`, after the
`|| 0` defaulting). -/
structure NodeBoxInput where
  x0 : ℚ
  x1 : ℚ
  y0 : ℚ
  y1 : ℚ
deriving DecidableEq, Repr

structure Offset where
  x : ℚ
  y : ℚ
deriving DecidableEq, Repr

structure ScaledBox where
  x0 : ℚ
  x1 : ℚ
  y0 : ℚ
  y1 : ℚ
  height : ℚ
  centerY : ℚ
deriving DecidableEq, Repr

/-- `getScaledNodeBoxWithOffset` from `src/components/SankeyChart.tsx`
lines 156-174 (`minNodeHeight = 8`). -/
def getScaledNodeBoxWithOffset (fr : ChartFrame) (n : NodeBoxInput) (off : Offset) : ScaledBox :=
  let center := (n.y0 + n.y1) / 2
  let baseHeight := (n.y1 - n.y0) * fr.nodeScale
  let height := max 8 baseHeight
  { x0 := n.x0 + off.x
  , x1 := n.x1 + off.x
  , y0 := center - height / 2 + off.y
  , y1 := center + height / 2 + off.y
  , height := height
  , centerY := center + off.y }

/-- One axis of `getClampedOffset` (`SankeyChart.tsx` lines 176-196): the
box edges along this axis are `v0 + r` and `v1 + r`; the two sequential
`if` statements add the left/top overflow and subtract the right/bottom
overflow, both computed from the box of the raw offset. -/
def clampAxis (v0 v1 lo hi r : ℚ) : ℚ :=
  r + (if v0 + r < lo then lo - (v0 + r) else 0)
    - (if v1 + r > hi then (v1 + r) - hi else 0)

/-- `getClampedOffset` from `src/components/SankeyChart.tsx` lines 176-196.
Along x the box edges are `n.x0 + off.x` and `n.x1 + off.x`; along y they are
`center - height/2 + off.y` and `center + height/2 + off.y`. -/
def getClampedOffset (fr : ChartFrame) (n : NodeBoxInput) (raw : Offset) : Offset :=
  let center := (n.y0 + n.y1) / 2
  let height := max 8 ((n.y1 - n.y0) * fr.nodeScale)
  { x := clampAxis n.x0 n.x1 fr.marginLeft (fr.width - fr.marginRight) raw.x
  , y := clampAxis (center - height / 2) (center + height / 2)
      fr.marginTop (fr.height - fr.marginBottom) raw.y }

theorem clampAxis_inside (v0 v1 lo hi r : ℚ) (hfit : v1 - v0 ≤ hi - lo) :
    lo ≤ v0 + clampAxis v0 v1 lo hi r ∧ v1 + clampAxis v0 v1 lo hi r ≤ hi := by
  unfold clampAxis
  split_ifs <;> constructor <;> linarith

theorem clampAxis_noop (v0 v1 lo hi r : ℚ) (h0 : lo ≤ v0 + r) (h1 : v1 + r ≤ hi) :
    clampAxis v0 v1 lo hi r = r := by
  unfold clampAxis
  rw [if_neg (by linarith), if_neg (by linarith)]
  ring

theorem clampAxis_idem (v0 v1 lo hi r : ℚ) (hfit : v1 - v0 ≤ hi - lo) :
    clampAxis v0 v1 lo hi (clampAxis v0 v1 lo hi r) = clampAxis v0 v1 lo hi r := by
  have h := clampAxis_inside v0 v1 lo hi r hfit
  exact clampAxis_noop v0 v1 lo hi _ h.1 h.2

theorem clampAxis_exact_lo (v0 v1 lo hi r : ℚ) (hfit : v1 - v0 ≤ hi - lo)
    (h : v0 + r < lo) : v0 + clampAxis v0 v1 lo hi r = lo := by
  unfold clampAxis
  rw [if_pos h, if_neg (by linarith)]
  ring

theorem clampAxis_exact_hi (v0 v1 lo hi r : ℚ) (hfit : v1 - v0 ≤ hi - lo)
    (h : v1 + r > hi) : v1 + clampAxis v0 v1 lo hi r = hi := by
  unfold clampAxis
  rw [if_neg (by linarith), if_pos h]
  ring

/-- C4 counterexample: for a node whose scaled box is wider than the canvas
interior (interior [250, 950], node x-extent 250..970, frame of the default
1200x700 canvas) and a raw offset of zero, the clamp is not idempotent —
clamping a second time undoes the first clamp — and the once-clamped box
still crosses the left margin, refuting both universal parts of the claim. -/
theorem getClampedOffset_not_idempotent_counterexample :
    getClampedOffset
        { width := 1200, height := 700, marginLeft := 250, marginRight := 250, marginTop := 80, marginBottom := 40, nodeScale := 1 }
        { x0 := 250, x1 := 970, y0 := 300, y1 := 308 }
        (getClampedOffset
          { width := 1200, height := 700, marginLeft := 250, marginRight := 250, marginTop := 80, marginBottom := 40, nodeScale := 1 }
          { x0 := 250, x1 := 970, y0 := 300, y1 := 308 }
          { x := 0, y := 0 })
      ≠ getClampedOffset
          { width := 1200, height := 700, marginLeft := 250, marginRight := 250, marginTop := 80, marginBottom := 40, nodeScale := 1 }
          { x0 := 250, x1 := 970, y0 := 300, y1 := 308 }
          { x := 0, y := 0 }
    ∧ (getScaledNodeBoxWithOffset
          { width := 1200, height := 700, marginLeft := 250, marginRight := 250, marginTop := 80, marginBottom := 40, nodeScale := 1 }
          { x0 := 250, x1 := 970, y0 := 300, y1 := 308 }
          (getClampedOffset
            { width := 1200, height := 700, marginLeft := 250, marginRight := 250, marginTop := 80, marginBottom := 40, nodeScale := 1 }
            { x0 := 250, x1 := 970, y0 := 300, y1 := 308 }
            { x := 0, y := 0 })).x0 < 250 := by
  have h1 : getClampedOffset
      { width := 1200, height := 700, marginLeft := 250, marginRight := 250, marginTop := 80, marginBottom := 40, nodeScale := 1 }
      { x0 := 250, x1 := 970, y0 := 300, y1 := 308 } { x := 0, y := 0 } = { x := -20, y := 0 } := by
    simp only [getClampedOffset, clampAxis]
    norm_num [max_def]
  rw [h1]
  have h2 : getClampedOffset
      { width := 1200, height := 700, marginLeft := 250, marginRight := 250, marginTop := 80, marginBottom := 40, nodeScale := 1 }
      { x0 := 250, x1 := 970, y0 := 300, y1 := 308 } { x := -20, y := 0 } = { x := 0, y := 0 } := by
    simp only [getClampedOffset, clampAxis]
    norm_num [max_def]
  rw [h2]
  constructor
  · intro h
    have := congrArg Offset.x h
    norm_num at this
  · simp only [getScaledNodeBoxWithOffset]
    norm_num

/-- C4 amended: whenever the node's scaled bounding box fits in the canvas
interior (x-extent at most the interior width, scaled height at most the
interior height), `getClampedOffset` is idempotent, the clamped box lies
fully inside the interior, each axis of the result depends only on that
axis of the raw offset (the orthogonal axis is never touched), an offset
whose box is already inside is returned unchanged, and an offending edge is
moved exactly onto the violated margin boundary.  Without the fitting
hypotheses idempotence and containment fail (see the counterexample). -/
theorem getClampedOffset_clamps (fr : ChartFrame) (n : NodeBoxInput) (raw : Offset)
    (hfitx : n.x1 - n.x0 ≤ (fr.width - fr.marginRight) - fr.marginLeft)
    (hfity : max 8 ((n.y1 - n.y0) * fr.nodeScale) ≤ (fr.height - fr.marginBottom) - fr.marginTop) :
    getClampedOffset fr n (getClampedOffset fr n raw) = getClampedOffset fr n raw
    ∧ (fr.marginLeft ≤ (getScaledNodeBoxWithOffset fr n (getClampedOffset fr n raw)).x0
        ∧ (getScaledNodeBoxWithOffset fr n (getClampedOffset fr n raw)).x1 ≤ fr.width - fr.marginRight
        ∧ fr.marginTop ≤ (getScaledNodeBoxWithOffset fr n (getClampedOffset fr n raw)).y0
        ∧ (getScaledNodeBoxWithOffset fr n (getClampedOffset fr n raw)).y1 ≤ fr.height - fr.marginBottom)
    ∧ (∀ ry, (getClampedOffset fr n { x := raw.x, y := ry }).x = (getClampedOffset fr n raw).x)
    ∧ (∀ rx, (getClampedOffset fr n { x := rx, y := raw.y }).y = (getClampedOffset fr n raw).y)
    ∧ (fr.marginLeft ≤ (getScaledNodeBoxWithOffset fr n raw).x0
        → (getScaledNodeBoxWithOffset fr n raw).x1 ≤ fr.width - fr.marginRight
        → fr.marginTop ≤ (getScaledNodeBoxWithOffset fr n raw).y0
        → (getScaledNodeBoxWithOffset fr n raw).y1 ≤ fr.height - fr.marginBottom
        → getClampedOffset fr n raw = raw)
    ∧ ((getScaledNodeBoxWithOffset fr n raw).x0 < fr.marginLeft
        → (getScaledNodeBoxWithOffset fr n (getClampedOffset fr n raw)).x0 = fr.marginLeft)
    ∧ ((getScaledNodeBoxWithOffset fr n raw).x1 > fr.width - fr.marginRight
        → (getScaledNodeBoxWithOffset fr n (getClampedOffset fr n raw)).x1 = fr.width - fr.marginRight)
    ∧ ((getScaledNodeBoxWithOffset fr n raw).y0 < fr.marginTop
        → (getScaledNodeBoxWithOffset fr n (getClampedOffset fr n raw)).y0 = fr.marginTop)
    ∧ ((getScaledNodeBoxWithOffset fr n raw).y1 > fr.height - fr.marginBottom
        → (getScaledNodeBoxWithOffset fr n (getClampedOffset fr n raw)).y1 = fr.height - fr.marginBottom) := by
  have hx := clampAxis_inside n.x0 n.x1 fr.marginLeft (fr.width - fr.marginRight) raw.x hfitx
  have hy := clampAxis_inside ((n.y0 + n.y1) / 2 - max 8 ((n.y1 - n.y0) * fr.nodeScale) / 2)
    ((n.y0 + n.y1) / 2 + max 8 ((n.y1 - n.y0) * fr.nodeScale) / 2)
    fr.marginTop (fr.height - fr.marginBottom) raw.y (by linarith)
  refine ⟨?_, ⟨?_, ?_, ?_, ?_⟩, fun ry => rfl, fun rx => rfl, ?_, ?_, ?_, ?_, ?_⟩
  · simp only [getClampedOffset]
    rw [clampAxis_noop _ _ _ _ _ hx.1 hx.2, clampAxis_noop _ _ _ _ _ hy.1 hy.2]
  · simpa [getScaledNodeBoxWithOffset, getClampedOffset] using hx.1
  · simpa [getScaledNodeBoxWithOffset, getClampedOffset] using hx.2
  · simpa [getScaledNodeBoxWithOffset, getClampedOffset] using hy.1
  · simpa [getScaledNodeBoxWithOffset, getClampedOffset] using hy.2
  · intro h1 h2 h3 h4
    simp only [getScaledNodeBoxWithOffset] at h1 h2 h3 h4
    simp only [getClampedOffset]
    rw [clampAxis_noop _ _ _ _ _ h1 h2, clampAxis_noop _ _ _ _ _ (by linarith) (by linarith)]
  · intro h
    simp only [getScaledNodeBoxWithOffset] at h ⊢
    simp only [getClampedOffset]
    exact clampAxis_exact_lo _ _ _ _ _ hfitx h
  · intro h
    simp only [getScaledNodeBoxWithOffset] at h ⊢
    simp only [getClampedOffset]
    exact clampAxis_exact_hi _ _ _ _ _ hfitx h
  · intro h
    simp only [getScaledNodeBoxWithOffset] at h ⊢
    simp only [getClampedOffset]
    have := clampAxis_exact_lo ((n.y0 + n.y1) / 2 - max 8 ((n.y1 - n.y0) * fr.nodeScale) / 2)
      ((n.y0 + n.y1) / 2 + max 8 ((n.y1 - n.y0) * fr.nodeScale) / 2)
      fr.marginTop (fr.height - fr.marginBottom) raw.y (by linarith) (by linarith)
    linarith
  · intro h
    simp only [getScaledNodeBoxWithOffset] at h ⊢
    simp only [getClampedOffset]
    have := clampAxis_exact_hi ((n.y0 + n.y1) / 2 - max 8 ((n.y1 - n.y0) * fr.nodeScale) / 2)
      ((n.y0 + n.y1) / 2 + max 8 ((n.y1 - n.y0) * fr.nodeScale) / 2)
      fr.marginTop (fr.height - fr.marginBottom) raw.y (by linarith) (by linarith)
    linarith

/-- Witness for C4 at the default frame with a 20-wide, 40-tall node dragged
far past the top-left corner. -/
theorem getClampedOffset_clamps_witness :
    getClampedOffset
        { width := 1200, height := 700, marginLeft := 250, marginRight := 250, marginTop := 80, marginBottom := 40, nodeScale := 1 }
        { x0 := 250, x1 := 270, y0 := 100, y1 := 140 }
        (getClampedOffset
          { width := 1200, height := 700, marginLeft := 250, marginRight := 250, marginTop := 80, marginBottom := 40, nodeScale := 1 }
          { x0 := 250, x1 := 270, y0 := 100, y1 := 140 }
          { x := -1000, y := -1000 })
      = getClampedOffset
          { width := 1200, height := 700, marginLeft := 250, marginRight := 250, marginTop := 80, marginBottom := 40, nodeScale := 1 }
          { x0 := 250, x1 := 270, y0 := 100, y1 := 140 }
          { x := -1000, y := -1000 } :=
  (getClampedOffset_clamps
    { width := 1200, height := 700, marginLeft := 250, marginRight := 250, marginTop := 80, marginBottom := 40, nodeScale := 1 }
    { x0 := 250, x1 := 270, y0 := 100, y1 := 140 }
    { x := -1000, y := -1000 }
    (by norm_num) (by norm_num)).1

/-- Association-list lookup: `Map.prototype.get`. -/
def lookupA {α β : Type} [DecidableEq α] : List (α × β) → α → Option β
  | [], _ => none
  | (k2, v) :: rest, k => if k2 = k then some v else lookupA rest k

/-- Association-list write: `Map.prototype.set` (and object spread with a
computed key): replace the value in place if the key exists, else append. -/
def assocSet {α β : Type} [DecidableEq α] (k : α) (v : β) : List (α × β) → List (α × β)
  | [] => [(k, v)]
  | (k2, v2) :: rest => if k2 = k then (k, v) :: rest else (k2, v2) :: assocSet k v rest

theorem lookupA_assocSet_self {α β : Type} [DecidableEq α] (l : List (α × β)) (k : α) (v : β) :
    lookupA (assocSet k v l) k = some v := by
  induction l with
  | nil => simp [assocSet, lookupA]
  | cons p rest ih =>
      obtain ⟨k2, v2⟩ := p
      unfold assocSet
      split_ifs with h
      · simp [lookupA]
      · simp [lookupA, h, ih]

theorem lookupA_assocSet_ne {α β : Type} [DecidableEq α] (l : List (α × β)) (k k2 : α) (v : β)
    (h : k2 ≠ k) : lookupA (assocSet k v l) k2 = lookupA l k2 := by
  induction l with
  | nil =>
      simp only [assocSet, lookupA]
      rw [if_neg fun he => h he.symm]
  | cons p rest ih =>
      obtain ⟨k3, v3⟩ := p
      unfold assocSet
      split_ifs with h3
      · subst h3
        simp [lookupA, h, Ne.symm h]
      · simp [lookupA, ih]

/-- The three maps built by the parent-grouping pass
(`src/App.tsx` lines 304-329). -/
structure ParentGroups where
  parentByNode : List (String × String)
  parentChildren : List (String × List String)
  bestValue : List (String × ℚ)
deriving DecidableEq, Repr

/-- One row of the `rows.forEach` loop of the parent-grouping pass.  Rows
with an empty trimmed source or target are skipped; the target is appended
to the source's child list if not yet present; the dominant parent of the
target is replaced only on a strictly larger `currentPeriod`
(`Number.isFinite` is always true over the rationals). -/
def childListUpdate (st : ParentGroups) (r : FlowRow) : List (String × List String) :=
  let list := (lookupA st.parentChildren (jsTrim r.source)).getD []
  if jsTrim r.target ∈ list then st.parentChildren
  else assocSet (jsTrim r.source) (list ++ [jsTrim r.target]) st.parentChildren

def parentStep (st : ParentGroups) (r : FlowRow) : ParentGroups :=
  if (jsTrim r.source).isEmpty || (jsTrim r.target).isEmpty then st
  else
    match lookupA st.bestValue (jsTrim r.target) with
    | none =>
        { parentByNode := assocSet (jsTrim r.target) (jsTrim r.source) st.parentByNode
        , parentChildren := childListUpdate st r
        , bestValue := assocSet (jsTrim r.target) r.currentPeriod st.bestValue }
    | some best =>
        if r.currentPeriod > best then
          { parentByNode := assocSet (jsTrim r.target) (jsTrim r.source) st.parentByNode
            , parentChildren := childListUpdate st r
            , bestValue := assocSet (jsTrim r.target) r.currentPeriod st.bestValue }
        else
          { st with parentChildren := childListUpdate st r }

theorem parentStep_skip (st : ParentGroups) (r : FlowRow)
    (h : ((jsTrim r.source).isEmpty || (jsTrim r.target).isEmpty) = true) :
    parentStep st r = st := by
  unfold parentStep
  rw [if_pos h]

theorem parentStep_fresh (st : ParentGroups) (r : FlowRow)
    (hsrc : (jsTrim r.source).isEmpty = false) (htgt : (jsTrim r.target).isEmpty = false)
    (hb : lookupA st.bestValue (jsTrim r.target) = none) :
    (parentStep st r).parentByNode = assocSet (jsTrim r.target) (jsTrim r.source) st.parentByNode
    ∧ (parentStep st r).bestValue = assocSet (jsTrim r.target) r.currentPeriod st.bestValue := by
  simp [parentStep, hsrc, htgt, hb]

theorem parentStep_better (st : ParentGroups) (r : FlowRow) (best : ℚ)
    (hsrc : (jsTrim r.source).isEmpty = false) (htgt : (jsTrim r.target).isEmpty = false)
    (hb : lookupA st.bestValue (jsTrim r.target) = some best)
    (hgt : r.currentPeriod > best) :
    (parentStep st r).parentByNode = assocSet (jsTrim r.target) (jsTrim r.source) st.parentByNode
    ∧ (parentStep st r).bestValue = assocSet (jsTrim r.target) r.currentPeriod st.bestValue := by
  simp [parentStep, hsrc, htgt, hb, hgt]

theorem parentStep_keep (st : ParentGroups) (r : FlowRow) (best : ℚ)
    (hsrc : (jsTrim r.source).isEmpty = false) (htgt : (jsTrim r.target).isEmpty = false)
    (hb : lookupA st.bestValue (jsTrim r.target) = some best)
    (hng : ¬ r.currentPeriod > best) :
    (parentStep st r).parentByNode = st.parentByNode
    ∧ (parentStep st r).bestValue = st.bestValue := by
  simp [parentStep, hsrc, htgt, hb, hng]

/-- `buildParentGroups` (the `parentGroups` computation of `src/App.tsx`
lines 304-329, also imported from the helpers by the later revision). -/
def buildParentGroups (rows : List FlowRow) : ParentGroups :=
  rows.foldl parentStep { parentByNode := [], parentChildren := [], bestValue := [] }

/-- The rows that contribute inflow to `node`: non-empty trimmed source and
target and trimmed target equal to `node`. -/
def incomingRows (rows : List FlowRow) (node : String) : List FlowRow :=
  rows.filter (fun r =>
    !(jsTrim r.source).isEmpty && !(jsTrim r.target).isEmpty
      && decide (jsTrim r.target = node))

/-- One step of the spec-side selection rule: a later row replaces the kept
one only when strictly larger. -/
def fmStep (acc : Option FlowRow) (r : FlowRow) : Option FlowRow :=
  match acc with
  | none => some r
  | some m => if r.currentPeriod > m.currentPeriod then some r else some m

/-- The spec-side selection rule: scan the list left to right and keep the
earliest row attaining the running maximum `currentPeriod`. -/
def firstMaxRow (l : List FlowRow) : Option FlowRow :=
  l.foldl fmStep none

theorem fmStep_some (m r : FlowRow) :
    fmStep (some m) r = if r.currentPeriod > m.currentPeriod then some r else some m := rfl

theorem firstMaxRow_append_one (l : List FlowRow) (r : FlowRow) :
    firstMaxRow (l ++ [r]) = fmStep (firstMaxRow l) r := by
  unfold firstMaxRow
  rw [List.foldl_append]
  rfl

theorem firstMaxRow_go_ne_none (acc : FlowRow) (rest : List FlowRow) :
    List.foldl fmStep (some acc) rest ≠ none := by
  induction rest generalizing acc with
  | nil => simp
  | cons c tc ihc =>
      rw [List.foldl_cons, fmStep_some]
      split_ifs
      · exact ihc c
      · exact ihc acc

/-- `firstMaxRow` picks an element that is at least as large as everything
in the list, strictly larger than everything before it, and at least as
large as everything after it: the earliest maximum. -/
theorem firstMaxRow_isFirstMax (l : List FlowRow) :
    ∀ r, firstMaxRow l = some r →
      ∃ l1 l2, l = l1 ++ r :: l2
        ∧ (∀ q ∈ l1, q.currentPeriod < r.currentPeriod)
        ∧ (∀ q ∈ l2, q.currentPeriod ≤ r.currentPeriod) := by
  induction l using List.reverseRecOn with
  | nil => intro r h; simp [firstMaxRow] at h
  | append_singleton t a ih =>
      intro r h
      rw [firstMaxRow_append_one] at h
      cases hm : firstMaxRow t with
      | none =>
          rw [hm] at h
          cases t with
          | nil =>
              obtain rfl : a = r := by simpa [fmStep] using h
              exact ⟨[], [], by simp, by simp, by simp⟩
          | cons b tb =>
              exact absurd hm (firstMaxRow_go_ne_none b tb)
      | some m =>
          rw [hm, fmStep_some] at h
          obtain ⟨l1, l2, heq, hlt, hle⟩ := ih m hm
          by_cases hgt : a.currentPeriod > m.currentPeriod
          · rw [if_pos hgt] at h
            obtain rfl : a = r := by injection h
            refine ⟨t, [], by simp, ?_, by simp⟩
            intro q hq
            rw [heq] at hq
            rcases List.mem_append.mp hq with hq1 | hq2
            · exact lt_trans (hlt q hq1) hgt
            · rcases List.mem_cons.mp hq2 with rfl | hq3
              · exact hgt
              · exact lt_of_le_of_lt (hle q hq3) hgt
          · rw [if_neg hgt] at h
            obtain rfl : m = r := by injection h
            refine ⟨l1, l2 ++ [a], by rw [heq]; simp, hlt, ?_⟩
            intro q hq
            rcases List.mem_append.mp hq with hq1 | hq2
            · exact hle q hq1
            · rcases List.mem_singleton.mp hq2 with rfl
              exact le_of_not_lt hgt

theorem incomingRows_append_one (rows : List FlowRow) (r : FlowRow) (node : String) :
    incomingRows (rows ++ [r]) node
      = incomingRows rows node
        ++ (if !(jsTrim r.source).isEmpty && !(jsTrim r.target).isEmpty
              && decide (jsTrim r.target = node) then [r] else []) := by
  unfold incomingRows
  simp [List.filter_append, List.filter_singleton]

/-- C7: for every node, the dominant parent recorded by the parent-grouping
pass is the trimmed source of the earliest incoming row attaining the
largest `currentPeriod` (ties keep the first-seen source), and the recorded
best value is that row's `currentPeriod`; when the node has no incoming row
neither map has an entry. -/
theorem parentByNode_first_max (rows : List FlowRow) (node : String) :
    lookupA (buildParentGroups rows).parentByNode node
        = (firstMaxRow (incomingRows rows node)).map (fun r => jsTrim r.source)
    ∧ lookupA (buildParentGroups rows).bestValue node
        = (firstMaxRow (incomingRows rows node)).map FlowRow.currentPeriod := by
  unfold buildParentGroups
  induction rows using List.reverseRecOn with
  | nil => exact ⟨rfl, rfl⟩
  | append_singleton t a ih =>
      rw [List.foldl_append, incomingRows_append_one]
      set st := List.foldl parentStep
        { parentByNode := [], parentChildren := [], bestValue := [] } t with hst
      rw [List.foldl_cons, List.foldl_nil]
      by_cases hskip : ((jsTrim a.source).isEmpty || (jsTrim a.target).isEmpty) = true
      · have hcond : (!(jsTrim a.source).isEmpty && !(jsTrim a.target).isEmpty
            && decide (jsTrim a.target = node)) = false := by
          rcases (Bool.or_eq_true _ _).mp hskip with h | h <;> simp [h]
        rw [parentStep_skip st a hskip, if_neg (by simp [hcond]), List.append_nil]
        exact ih
      · simp only [Bool.or_eq_true, not_or, Bool.not_eq_true] at hskip
        obtain ⟨hsrc, htgt⟩ := hskip
        by_cases hnode : jsTrim a.target = node
        · have htgt2 : node.isEmpty = false := hnode ▸ htgt
          rw [if_pos (by simp [hsrc, htgt, htgt2, hnode]), firstMaxRow_append_one]
          cases hfm : firstMaxRow (incomingRows t node) with
          | none =>
              have hb : lookupA st.bestValue (jsTrim a.target) = none := by
                simp [hnode, ih.2, hfm]
              obtain ⟨hp, hv⟩ := parentStep_fresh st a hsrc htgt hb
              rw [hp, hv, hnode]
              constructor
              · rw [lookupA_assocSet_self]; rfl
              · rw [lookupA_assocSet_self]; rfl
          | some m =>
              have hb : lookupA st.bestValue (jsTrim a.target) = some m.currentPeriod := by
                simp [hnode, ih.2, hfm]
              by_cases hgt : a.currentPeriod > m.currentPeriod
              · obtain ⟨hp, hv⟩ := parentStep_better st a m.currentPeriod hsrc htgt hb hgt
                rw [hp, hv, hnode, fmStep_some, if_pos hgt]
                constructor
                · rw [lookupA_assocSet_self]; rfl
                · rw [lookupA_assocSet_self]; rfl
              · obtain ⟨hp, hv⟩ := parentStep_keep st a m.currentPeriod hsrc htgt hb hgt
                rw [hp, hv, fmStep_some, if_neg hgt]
                exact ⟨by simp [ih.1, hfm], by simp [ih.2, hfm]⟩
        · rw [if_neg (by simp [hnode]), List.append_nil]
          have hne : node ≠ jsTrim a.target := fun h => hnode h.symm
          cases hb : lookupA st.bestValue (jsTrim a.target) with
          | none =>
              obtain ⟨hp, hv⟩ := parentStep_fresh st a hsrc htgt hb
              rw [hp, hv, lookupA_assocSet_ne _ _ _ _ hne, lookupA_assocSet_ne _ _ _ _ hne]
              exact ih
          | some best =>
              by_cases hgt : a.currentPeriod > best
              · obtain ⟨hp, hv⟩ := parentStep_better st a best hsrc htgt hb hgt
                rw [hp, hv, lookupA_assocSet_ne _ _ _ _ hne, lookupA_assocSet_ne _ _ _ _ hne]
                exact ih
              · obtain ⟨hp, hv⟩ := parentStep_keep st a best hsrc htgt hb hgt
                rw [hp, hv]
                exact ih

/-- Per-node aggregate built by `BalanceSummary` (`NodeBalance` of the
balance-checker component). -/
structure NodeBalance where
  name : String
  currentIn : ℚ
  currentOut : ℚ
  previousIn : ℚ
  previousOut : ℚ
  hasIn : Bool
  hasOut : Bool
deriving DecidableEq, Repr

/-- `Map.set` of a fresh zeroed balance if the name is not yet present
(insertion order preserved). -/
def ensureBal (l : List NodeBalance) (name : String) : List NodeBalance :=
  if l.any (fun b => b.name = name) then l
  else l ++ [{ name := name, currentIn := 0, currentOut := 0, previousIn := 0,
               previousOut := 0, hasIn := false, hasOut := false }]

/-- In-place mutation of the named balance object (names are unique in the
list, so mapping over the list is the effect of mutating the Map entry). -/
def updBal (l : List NodeBalance) (name : String) (f : NodeBalance → NodeBalance) :
    List NodeBalance :=
  l.map (fun b => if b.name = name then f b else b)

/-- One iteration of the `rows.forEach` loop of `BalanceSummary`
(balance-checker component, lines 26-59).  Rows with an empty trimmed source
or target only record a problem; the `Number.isFinite` guard never fires
over the rationals; negative values record a problem but are still
aggregated. -/
def balanceStep (st : List NodeBalance × List String) (index : Nat) (row : FlowRow) :
    List NodeBalance × List String :=
  let source := jsTrim row.source
  let target := jsTrim row.target
  if source.isEmpty || target.isEmpty then
    (st.1, st.2 ++ ["Строка " ++ toString (index + 1) ++ ": нет источника или потребителя."])
  else
    let problems := if row.currentPeriod < 0 ∨ row.previousPeriod < 0 then
        st.2 ++ ["Строка " ++ toString (index + 1) ++ ": отрицательные значения."]
      else st.2
    let balances := ensureBal (ensureBal st.1 source) target
    let balances := updBal balances source (fun b =>
      { b with currentOut := b.currentOut + row.currentPeriod
             , previousOut := b.previousOut + row.previousPeriod
             , hasOut := true })
    let balances := updBal balances target (fun b =>
      { b with currentIn := b.currentIn + row.currentPeriod
             , previousIn := b.previousIn + row.previousPeriod
             , hasIn := true })
    (balances, problems)

def balanceScan : Nat → List FlowRow → (List NodeBalance × List String) →
    List NodeBalance × List String
  | _, [], st => st
  | i, r :: rest, st => balanceScan (i + 1) rest (balanceStep st i r)

/-- The `nodeBalances` array of `BalanceSummary` (insertion order of the
`Map`). -/
def balanceNodes (rows : List FlowRow) : List NodeBalance :=
  (balanceScan 0 rows ([], [])).1

/-- The `issues` array of `BalanceSummary`. -/
def balanceIssues (rows : List FlowRow) : List String :=
  (balanceScan 0 rows ([], [])).2

def epsilon : ℚ := 1 / 1000

structure Totals where
  current : ℚ
  previous : ℚ
deriving DecidableEq, Repr

/-- Pure sources: outflow but no inflow. -/
def sourceNodes (rows : List FlowRow) : List NodeBalance :=
  (balanceNodes rows).filter (fun b => b.hasOut && !b.hasIn)

/-- Pure sinks: inflow but no outflow. -/
def sinkNodes (rows : List FlowRow) : List NodeBalance :=
  (balanceNodes rows).filter (fun b => b.hasIn && !b.hasOut)

def sourceTotals (rows : List FlowRow) : Totals :=
  { current := (sourceNodes rows).foldl (fun s b => s + b.currentOut) 0
  , previous := (sourceNodes rows).foldl (fun s b => s + b.previousOut) 0 }

def sinkTotals (rows : List FlowRow) : Totals :=
  { current := (sinkNodes rows).foldl (fun s b => s + b.currentIn) 0
  , previous := (sinkNodes rows).foldl (fun s b => s + b.previousIn) 0 }

/-- Intermediate nodes: both inflow and outflow. -/
def intermediateNodes (rows : List FlowRow) : List NodeBalance :=
  (balanceNodes rows).filter (fun b => b.hasIn && b.hasOut)

/-- The imbalance filter of `BalanceSummary` (lines 80-84). -/
def imbalancedNodes (rows : List FlowRow) : List NodeBalance :=
  (intermediateNodes rows).filter (fun b =>
    decide (|b.currentIn - b.currentOut| > epsilon)
      || decide (|b.previousIn - b.previousOut| > epsilon))

/-- The graph-extremity comparison of `BalanceSummary` (lines 86-88). -/
def edgeMismatch (rows : List FlowRow) : Bool :=
  decide (|(sourceTotals rows).current - (sinkTotals rows).current| > epsilon)
    || decide (|(sourceTotals rows).previous - (sinkTotals rows).previous| > epsilon)

/-- C8: the Balance Checker classifies nodes into pure sources, pure sinks
and intermediate nodes; a node is reported imbalanced exactly when it is
intermediate and the absolute in/out difference exceeds epsilon = 0.001 in
the current or the previous period; the extremity check compares total
pure-source outflow against total pure-sink inflow; and the two concrete
row sets of the claim behave as stated (B imbalanced with currentIn 10 and
currentOut 4 in the first; A a pure source with currentOut 15, B and C pure
sinks and nothing imbalanced in the second). -/
theorem balanceChecker_correct :
    (∀ rows b, b ∈ imbalancedNodes rows
        ↔ (b ∈ balanceNodes rows ∧ b.hasIn = true ∧ b.hasOut = true)
          ∧ (|b.currentIn - b.currentOut| > epsilon ∨ |b.previousIn - b.previousOut| > epsilon))
    ∧ (∀ rows, edgeMismatch rows = true
        ↔ |(sourceTotals rows).current - (sinkTotals rows).current| > epsilon
          ∨ |(sourceTotals rows).previous - (sinkTotals rows).previous| > epsilon)
    ∧ balanceNodes [{ id := "r1", source := "A", target := "B", currentPeriod := 10, previousPeriod := 0 }, { id := "r2", source := "B", target := "C", currentPeriod := 4, previousPeriod := 0 }]
        = [{ name := "A", currentIn := 0, currentOut := 10, previousIn := 0, previousOut := 0, hasIn := false, hasOut := true },
           { name := "B", currentIn := 10, currentOut := 4, previousIn := 0, previousOut := 0, hasIn := true, hasOut := true },
           { name := "C", currentIn := 4, currentOut := 0, previousIn := 0, previousOut := 0, hasIn := true, hasOut := false }]
    ∧ imbalancedNodes [{ id := "r1", source := "A", target := "B", currentPeriod := 10, previousPeriod := 0 }, { id := "r2", source := "B", target := "C", currentPeriod := 4, previousPeriod := 0 }]
        = [{ name := "B", currentIn := 10, currentOut := 4, previousIn := 0, previousOut := 0, hasIn := true, hasOut := true }]
    ∧ balanceNodes [{ id := "r1", source := "A", target := "B", currentPeriod := 10, previousPeriod := 8 }, { id := "r2", source := "A", target := "C", currentPeriod := 5, previousPeriod := 5 }]
        = [{ name := "A", currentIn := 0, currentOut := 15, previousIn := 0, previousOut := 13, hasIn := false, hasOut := true },
           { name := "B", currentIn := 10, currentOut := 0, previousIn := 8, previousOut := 0, hasIn := true, hasOut := false },
           { name := "C", currentIn := 5, currentOut := 0, previousIn := 5, previousOut := 0, hasIn := true, hasOut := false }]
    ∧ imbalancedNodes [{ id := "r1", source := "A", target := "B", currentPeriod := 10, previousPeriod := 8 }, { id := "r2", source := "A", target := "C", currentPeriod := 5, previousPeriod := 5 }] = []
    ∧ sourceTotals [{ id := "r1", source := "A", target := "B", currentPeriod := 10, previousPeriod := 8 }, { id := "r2", source := "A", target := "C", currentPeriod := 5, previousPeriod := 5 }] = { current := 15, previous := 13 }
    ∧ sinkTotals [{ id := "r1", source := "A", target := "B", currentPeriod := 10, previousPeriod := 8 }, { id := "r2", source := "A", target := "C", currentPeriod := 5, previousPeriod := 5 }] = { current := 15, previous := 13 } := by
  have hA : jsTrim "A" = "A" := by decide
  have hB : jsTrim "B" = "B" := by decide
  have hC : jsTrim "C" = "C" := by decide
  have eA : ("A" : String).isEmpty = false := by decide
  have eB : ("B" : String).isEmpty = false := by decide
  have eC : ("C" : String).isEmpty = false := by decide
  have nAB : (jsTrim "A" = jsTrim "B") = False := by decide
  have nBA : (jsTrim "B" = jsTrim "A") = False := by decide
  have nAC : (jsTrim "A" = jsTrim "C") = False := by decide
  have nCA : (jsTrim "C" = jsTrim "A") = False := by decide
  have nBC : (jsTrim "B" = jsTrim "C") = False := by decide
  have nCB : (jsTrim "C" = jsTrim "B") = False := by decide
  have hex1 : balanceNodes [{ id := "r1", source := "A", target := "B", currentPeriod := 10, previousPeriod := 0 }, { id := "r2", source := "B", target := "C", currentPeriod := 4, previousPeriod := 0 }]
      = [{ name := "A", currentIn := 0, currentOut := 10, previousIn := 0, previousOut := 0, hasIn := false, hasOut := true },
         { name := "B", currentIn := 10, currentOut := 4, previousIn := 0, previousOut := 0, hasIn := true, hasOut := true },
         { name := "C", currentIn := 4, currentOut := 0, previousIn := 0, previousOut := 0, hasIn := true, hasOut := false }] := by
    simp [balanceNodes, balanceScan, balanceStep, ensureBal, updBal, hA, hB, hC, eA, eB, eC, nAB, nBA, nAC, nCA, nBC, nCB]
  have hex2 : balanceNodes [{ id := "r1", source := "A", target := "B", currentPeriod := 10, previousPeriod := 8 }, { id := "r2", source := "A", target := "C", currentPeriod := 5, previousPeriod := 5 }]
      = [{ name := "A", currentIn := 0, currentOut := 15, previousIn := 0, previousOut := 13, hasIn := false, hasOut := true },
         { name := "B", currentIn := 10, currentOut := 0, previousIn := 8, previousOut := 0, hasIn := true, hasOut := false },
         { name := "C", currentIn := 5, currentOut := 0, previousIn := 5, previousOut := 0, hasIn := true, hasOut := false }] := by
    simp [balanceNodes, balanceScan, balanceStep, ensureBal, updBal, hA, hB, hC, eA, eB, eC, nAB, nBA, nAC, nCA, nBC, nCB]
    norm_num
  refine ⟨?_, ?_, hex1, ?_, hex2, ?_, ?_, ?_⟩
  · intro rows b
    simp only [imbalancedNodes, intermediateNodes, List.mem_filter, Bool.and_eq_true,
      Bool.or_eq_true, decide_eq_true_eq, and_assoc]
  · intro rows
    simp [edgeMismatch]
  · simp only [imbalancedNodes, intermediateNodes, hex1]
    norm_num [epsilon, List.filter]
  · simp only [imbalancedNodes, intermediateNodes, hex2]
    norm_num [epsilon, List.filter]
  · simp only [sourceTotals, sourceNodes, hex2]
    norm_num [List.filter, List.foldl, Totals.mk.injEq]
  · simp only [sinkTotals, sinkNodes, hex2]
    norm_num [List.filter, List.foldl, Totals.mk.injEq]

/-- Per-node override record, `NodeSettings` of `src/types.ts` (with the
parent-scoped `childrenOrder` map of the later revision); an absent
`childrenOrder` and an empty map behave identically at every use site
(`parentSettings.childrenOrder || {}`), so both are modelled as `[]`. -/
structure NodeSettings where
  color : Option String := none
  labelSize : Option ℚ := none
  valueSize : Option ℚ := none
  offsetX : Option ℚ := none
  offsetY : Option ℚ := none
  linkColorPriority : Option Bool := none
  orderY : Option ℚ := none
  childrenOrder : List (String × ℚ) := []
deriving DecidableEq, Repr

/-- The childrenOrder entry of `child` under `parent` in a settings map. -/
def lookupChildOrder (ns : List (String × NodeSettings)) (parent child : String) : Option ℚ :=
  match lookupA ns parent with
  | none => none
  | some st => lookupA st.childrenOrder child

/-- One `Object.entries(orderMap).forEach` step of the migration: copy the
legacy rank only when no numeric entry is present (gap filling). -/
def insertGap (m : List (String × ℚ)) (cp : String × ℚ) : List (String × ℚ) :=
  if (lookupA m cp.1).isSome then m else assocSet cp.1 cp.2 m

/-- One step of the first migration loop (`loadSettingsFromStorage`,
`src/App.tsx` lines 685-692): a node with a numeric legacy `orderY` and a
dominant parent contributes `orderY` to that parent's order map. -/
def buildStep (pb : List (String × String)) (acc : List (String × List (String × ℚ)))
    (p : String × NodeSettings) : List (String × List (String × ℚ)) :=
  match p.2.orderY with
  | none => acc
  | some y =>
    match lookupA pb p.1 with
    | none => acc
    | some parent =>
        assocSet parent (assocSet p.1 y ((lookupA acc parent).getD [])) acc

/-- The `parentOrders` map of the migration. -/
def buildParentOrders (ns : List (String × NodeSettings)) (pb : List (String × String)) :
    List (String × List (String × ℚ)) :=
  ns.foldl (buildStep pb) []

/-- One step of the second migration loop (`src/App.tsx` lines 694-706):
merge a parent's collected legacy ranks into its `childrenOrder`, keeping
every already-present entry. -/
def applyStep (next : List (String × NodeSettings)) (pp : String × List (String × ℚ)) :
    List (String × NodeSettings) :=
  let parentSettings := (lookupA next pp.1).getD {}
  let merged := pp.2.foldl insertGap parentSettings.childrenOrder
  assocSet pp.1 { parentSettings with childrenOrder := merged } next

/-- The settings migration of `loadSettingsFromStorage`
(`src/App.tsx` lines 681-711): reconstruct `childrenOrder` from legacy flat
`orderY` values grouped under each node's dominant parent. -/
def migrateNodeSettings (ns : List (String × NodeSettings)) (pb : List (String × String)) :
    List (String × NodeSettings) :=
  (buildParentOrders ns pb).foldl applyStep ns

theorem lookupA_split {α β : Type} [DecidableEq α] (l : List (α × β)) (k : α) (v : β)
    (h : lookupA l k = some v) :
    ∃ l1 l2, l = l1 ++ (k, v) :: l2 := by
  induction l with
  | nil => simp [lookupA] at h
  | cons p rest ih =>
      obtain ⟨k2, v2⟩ := p
      unfold lookupA at h
      split_ifs at h with hk
      · obtain rfl := Option.some.inj h
        exact ⟨[], rest, by rw [hk]; simp⟩
      · obtain ⟨l1, l2, heq⟩ := ih h
        exact ⟨(k2, v2) :: l1, l2, by rw [heq]; rfl⟩

theorem lookupA_insertGap_preserve (m : List (String × ℚ)) (cp : String × ℚ) (c : String)
    (v : ℚ) (h : lookupA m c = some v) : lookupA (insertGap m cp) c = some v := by
  unfold insertGap
  split_ifs with hs
  · exact h
  · by_cases hc : cp.1 = c
    · exact absurd (by rw [hc, h]; rfl) hs
    · rw [lookupA_assocSet_ne _ _ _ _ (fun he => hc he.symm)]
      exact h

theorem lookupA_foldl_insertGap_preserve (om : List (String × ℚ)) (m : List (String × ℚ))
    (c : String) (v : ℚ) (h : lookupA m c = some v) :
    lookupA (om.foldl insertGap m) c = some v := by
  induction om generalizing m with
  | nil => exact h
  | cons cp rest ih => exact ih _ (lookupA_insertGap_preserve m cp c v h)

theorem lookupA_foldl_insertGap_isSome (om : List (String × ℚ)) (m : List (String × ℚ))
    (c : String) (h : (lookupA m c).isSome = true) :
    (lookupA (om.foldl insertGap m) c).isSome = true := by
  obtain ⟨v, hv⟩ := Option.isSome_iff_exists.mp h
  rw [lookupA_foldl_insertGap_preserve om m c v hv]
  rfl

theorem lookupA_foldl_insertGap_establish (om : List (String × ℚ)) (m : List (String × ℚ))
    (c : String) (h : (lookupA om c).isSome = true) :
    (lookupA (om.foldl insertGap m) c).isSome = true := by
  obtain ⟨y, hy⟩ := Option.isSome_iff_exists.mp h
  obtain ⟨o1, o2, heq⟩ := lookupA_split om c y hy
  subst heq
  rw [List.foldl_append, List.foldl_cons]
  apply lookupA_foldl_insertGap_isSome
  unfold insertGap
  split_ifs with hs
  · exact hs
  · rw [lookupA_assocSet_self]
    rfl

theorem applyStep_preserve (next : List (String × NodeSettings))
    (pp : String × List (String × ℚ)) (parent child : String) (v : ℚ)
    (h : lookupChildOrder next parent child = some v) :
    lookupChildOrder (applyStep next pp) parent child = some v := by
  unfold lookupChildOrder at h
  by_cases hp : pp.1 = parent
  · subst hp
    cases hst : lookupA next pp.1 with
    | none => rw [hst] at h; exact absurd h (by simp)
    | some st =>
        rw [hst] at h
        unfold applyStep lookupChildOrder
        rw [lookupA_assocSet_self]
        simp only [hst, Option.getD_some]
        exact lookupA_foldl_insertGap_preserve _ _ _ _ h
  · unfold applyStep lookupChildOrder
    rw [lookupA_assocSet_ne _ _ _ _ (fun he => hp he.symm)]
    exact h

theorem applyStep_establish (next : List (String × NodeSettings)) (parent : String)
    (om : List (String × ℚ)) (child : String)
    (h : (lookupA om child).isSome = true) :
    (lookupChildOrder (applyStep next (parent, om)) parent child).isSome = true := by
  unfold applyStep lookupChildOrder
  rw [lookupA_assocSet_self]
  exact lookupA_foldl_insertGap_establish om _ child h

theorem applyPO_preserve (po : List (String × List (String × ℚ)))
    (next : List (String × NodeSettings)) (parent child : String) (v : ℚ)
    (h : lookupChildOrder next parent child = some v) :
    lookupChildOrder (po.foldl applyStep next) parent child = some v := by
  induction po generalizing next with
  | nil => exact h
  | cons pp rest ih => exact ih _ (applyStep_preserve next pp parent child v h)

theorem applyPO_isSome (po : List (String × List (String × ℚ)))
    (next : List (String × NodeSettings)) (parent child : String)
    (h : (lookupChildOrder next parent child).isSome = true) :
    (lookupChildOrder (po.foldl applyStep next) parent child).isSome = true := by
  obtain ⟨v, hv⟩ := Option.isSome_iff_exists.mp h
  rw [applyPO_preserve po next parent child v hv]
  rfl

theorem buildStep_preserve (pb : List (String × String))
    (acc : List (String × List (String × ℚ))) (q : String × NodeSettings)
    (parent child : String)
    (h : ∃ om, lookupA acc parent = some om ∧ (lookupA om child).isSome = true) :
    ∃ om, lookupA (buildStep pb acc q) parent = some om
      ∧ (lookupA om child).isSome = true := by
  obtain ⟨om, hom, hsome⟩ := h
  unfold buildStep
  cases q.2.orderY with
  | none => exact ⟨om, hom, hsome⟩
  | some y =>
      cases lookupA pb q.1 with
      | none => exact ⟨om, hom, hsome⟩
      | some p2 =>
          by_cases hp : p2 = parent
          · subst hp
            refine ⟨assocSet q.1 y ((lookupA acc p2).getD []), lookupA_assocSet_self _ _ _, ?_⟩
            rw [hom, Option.getD_some]
            by_cases hc : q.1 = child
            · rw [hc, lookupA_assocSet_self]
              rfl
            · rw [lookupA_assocSet_ne _ _ _ _ (fun he => hc he.symm)]
              exact hsome
          · refine ⟨om, ?_, hsome⟩
            rw [lookupA_assocSet_ne _ _ _ _ (fun he => hp he.symm)]
            exact hom

theorem buildPO_fold_preserve (pb : List (String × String)) (l : List (String × NodeSettings))
    (acc : List (String × List (String × ℚ))) (parent child : String)
    (h : ∃ om, lookupA acc parent = some om ∧ (lookupA om child).isSome = true) :
    ∃ om, lookupA (l.foldl (buildStep pb) acc) parent = some om
      ∧ (lookupA om child).isSome = true := by
  induction l generalizing acc with
  | nil => exact h
  | cons q rest ih => exact ih _ (buildStep_preserve pb acc q parent child h)

theorem buildPO_has (ns : List (String × NodeSettings)) (pb : List (String × String))
    (child : String) (st : NodeSettings) (y : ℚ) (parent : String)
    (hns : lookupA ns child = some st) (hy : st.orderY = some y)
    (hpb : lookupA pb child = some parent) :
    ∃ om, lookupA (buildParentOrders ns pb) parent = some om
      ∧ (lookupA om child).isSome = true := by
  obtain ⟨l1, l2, heq⟩ := lookupA_split ns child st hns
  subst heq
  unfold buildParentOrders
  rw [List.foldl_append, List.foldl_cons]
  apply buildPO_fold_preserve
  unfold buildStep
  simp only [hy, hpb]
  refine ⟨assocSet child y ((lookupA (List.foldl (buildStep pb) [] l1) parent).getD []),
    lookupA_assocSet_self _ _ _, ?_⟩
  rw [lookupA_assocSet_self]
  rfl

/-- C9: the settings migration only fills gaps — an already-present numeric
`childrenOrder` entry of any parent survives migration with the same value —
and after migration every node that carried a legacy `orderY` and has a
dominant parent owns a `childrenOrder` entry under that parent. -/
theorem migrateNodeSettings_correct (ns : List (String × NodeSettings))
    (pb : List (String × String)) :
    (∀ parent child v, lookupChildOrder ns parent child = some v →
        lookupChildOrder (migrateNodeSettings ns pb) parent child = some v)
    ∧ (∀ child st y parent, lookupA ns child = some st → st.orderY = some y →
        lookupA pb child = some parent →
        (lookupChildOrder (migrateNodeSettings ns pb) parent child).isSome = true) := by
  constructor
  · intro parent child v h
    exact applyPO_preserve _ ns parent child v h
  · intro child st y parent hns hy hpb
    obtain ⟨om, hpo, hsome⟩ := buildPO_has ns pb child st y parent hns hy hpb
    obtain ⟨p1, p2, heq⟩ := lookupA_split _ parent om hpo
    unfold migrateNodeSettings
    rw [heq, List.foldl_append, List.foldl_cons]
    apply applyPO_isSome
    exact applyStep_establish _ parent om child hsome

/-- Witness for C9: a parent A with an existing childrenOrder entry for B of
rank 5, while B carries legacy orderY 1 and dominant parent A: migration
keeps the value 5 (no overwrite) and B has an entry under A. -/
theorem migrateNodeSettings_correct_witness :
    lookupChildOrder
        (migrateNodeSettings
          [("A", { childrenOrder := [("B", 5)] }), ("B", { orderY := some 1 })]
          [("B", "A")])
        "A" "B" = some 5
    ∧ (lookupChildOrder
        (migrateNodeSettings
          [("A", { childrenOrder := [("B", 5)] }), ("B", { orderY := some 1 })]
          [("B", "A")])
        "A" "B").isSome = true :=
  ⟨(migrateNodeSettings_correct
      [("A", { childrenOrder := [("B", 5)] }), ("B", { orderY := some 1 })]
      [("B", "A")]).1 "A" "B" 5 (by decide),
   (migrateNodeSettings_correct
      [("A", { childrenOrder := [("B", 5)] }), ("B", { orderY := some 1 })]
      [("B", "A")]).2 "B" { orderY := some 1 } 1 "A" (by decide) (by decide) (by decide)⟩

/-- `a.localeCompare(b)`, embedded as code-point lexical comparison. -/
def jsCompare (a b : String) : Int :=
  if a = b then 0 else if a < b then -1 else 1

/-- `getNodeSortOrder` (`SankeyChart.tsx` line 104, `App.tsx` line 914): the
node's first-seen index in the Graph Builder's node list, defaulting to 0
for a name outside the list (the `?? 0`). -/
def getNodeSortOrder (names : List String) (name : String) : Int :=
  if name ∈ names then names.indexOf name else 0

/-- The `nodeSort` comparator handed to the sankey layout
(`SankeyChart.tsx` lines 114-118, `App.tsx` lines 920-924). -/
def nodeSortCmp (names : List String) (a b : String) : Int :=
  if getNodeSortOrder names a - getNodeSortOrder names b ≠ 0 then
    getNodeSortOrder names a - getNodeSortOrder names b
  else jsCompare a b

/-- C2 counterexample: for the rows B→X then A→X the Graph Builder's
first-seen node order is [B, X, A]; a parent's childrenOrder ranks A (0)
before B (1), so the claim requires the layout comparator to put A before B;
but the comparator compares A against B as positive (B first): the nodeSort
comparator never consults childrenOrder ranks. -/
theorem nodeSortCmp_ignores_childrenOrder_counterexample :
    (prepareNodesAndLinks
        [{ id := "r1", source := "B", target := "X", currentPeriod := 1, previousPeriod := 0 }, { id := "r2", source := "A", target := "X", currentPeriod := 1, previousPeriod := 0 }]).nodes.map NodeRef.name
      = ["B", "X", "A"]
    ∧ lookupA [("A", (0 : ℚ)), ("B", 1)] "A" = some 0
    ∧ lookupA [("A", (0 : ℚ)), ("B", 1)] "B" = some 1
    ∧ 0 < nodeSortCmp ["B", "X", "A"] "A" "B" := by
  refine ⟨?_, by decide, by decide, by decide⟩
  rw [nodes_map_name]
  decide

/-- C2 amended: the layout's nodeSort comparator orders two distinct nodes
of the node list strictly by their first-seen Graph Builder index (lexical
name comparison only breaks ties of the order values, which cannot occur
between distinct listed nodes); childrenOrder overrides never enter the
comparator. -/
theorem nodeSortCmp_first_seen (names : List String) (a b : String)
    (ha : a ∈ names) (hb : b ∈ names) (hne : a ≠ b) :
    (nodeSortCmp names a b < 0 ↔ names.indexOf a < names.indexOf b)
    ∧ (0 < nodeSortCmp names a b ↔ names.indexOf b < names.indexOf a) := by
  have hia : getNodeSortOrder names a = (names.indexOf a : Int) := if_pos ha
  have hib : getNodeSortOrder names b = (names.indexOf b : Int) := if_pos hb
  have hij : names.indexOf a ≠ names.indexOf b := fun h => hne ((List.indexOf_inj ha hb).mp h)
  unfold nodeSortCmp
  rw [hia, hib, if_pos (show (names.indexOf a : Int) - names.indexOf b ≠ 0 by omega)]
  constructor
  · omega
  · omega

/-- Witness for C2: in the node list [B, X, A], X (index 1) compares before
A (index 2). -/
theorem nodeSortCmp_first_seen_witness :
    (nodeSortCmp ["B", "X", "A"] "X" "A" < 0
      ↔ ["B", "X", "A"].indexOf "X" < ["B", "X", "A"].indexOf "A")
    ∧ (0 < nodeSortCmp ["B", "X", "A"] "X" "A"
      ↔ ["B", "X", "A"].indexOf "A" < ["B", "X", "A"].indexOf "X") :=
  nodeSortCmp_first_seen ["B", "X", "A"] "X" "A" (by decide) (by decide) (by decide)

/-- C1: `determineFlowType` is a pure, deterministic, case-insensitive
function of (source, target) resolving in the fixed priority order
adjacentRevenue, revenue, profit, expense as described in spec section 4.1;
case changes in either argument never change the result; the four concrete
examples of spec section 8.2 hold, and a row that is both from revenue and
to profit is classified revenue (source-side signals win). -/
theorem determineFlowType_correct :
    (∀ source target, determineFlowType source target = classifySpec source target)
    ∧ (∀ s t s2 t2, toLowerStr s = toLowerStr s2 → toLowerStr t = toLowerStr t2 →
        determineFlowType s t = determineFlowType s2 t2)
    ∧ determineFlowType "Прочие доходы" "Валовая прибыль" = FlowType.adjacentRevenue
    ∧ determineFlowType "Выручка" "Себестоимость" = FlowType.revenue
    ∧ determineFlowType "Валовая прибыль" "EBITDA" = FlowType.profit
    ∧ determineFlowType "Коммерческие расходы" "X" = FlowType.expense
    ∧ determineFlowType "Выручка" "Валовая прибыль" = FlowType.revenue := by
  refine ⟨fun _ _ => rfl, ?_, by decide, by decide, by decide, by decide, by decide⟩
  intro s t s2 t2 h1 h2
  simp only [determineFlowType, h1, h2]

/-- Witness for C1: the case-insensitivity component applied at concrete
inputs with its lowercase-equality hypotheses discharged by evaluation. -/
theorem determineFlowType_correct_witness :
    determineFlowType "ВЫРУЧКА" "Прибыль" = determineFlowType "выручка" "прибыль" :=
  determineFlowType_correct.2.1 "ВЫРУЧКА" "Прибыль" "выручка" "прибыль"
    (by decide) (by decide)

/-- C10: `calculateChange` is total over the rationals, returns
`value = current - previous`, and guards division by zero: the percent is
`((current - previous) / previous) * 100` when `previous ≠ 0` and exactly `0`
when `previous = 0`. -/
theorem calculateChange_total_guarded :
    ∀ current previous : ℚ,
      (calculateChange current previous).value = current - previous
      ∧ (calculateChange current previous).percent =
          (if previous = 0 then 0 else (current - previous) / previous * 100) := by
  intro c p
  refine ⟨rfl, ?_⟩
  by_cases h : p = 0 <;> simp [calculateChange, h]

/-- The layout data `getSiblingOrder` reads (`App.tsx` lines 900-961): which
column each node landed in, and each column's node names in visual order.
The d3-sankey geometry itself is an external collaborator; its output enters
the reorder machinery only through these two maps. -/
structure LayoutColumns where
  columnByName : List (String × Nat)
  columns : List (Nat × List String)
deriving DecidableEq, Repr

/-- The comparator of the sibling sort (`App.tsx` lines 990-997) as an
ordering relation: ascending sort value, localeCompare (embedded as
code-point order) on ties. -/
def siblingLE (value : String → ℚ) (a b : String) : Prop :=
  value a < value b ∨ (value a = value b ∧ a ≤ b)

instance (value : String → ℚ) : DecidableRel (siblingLE value) := fun a b => by
  unfold siblingLE
  infer_instance

instance (value : String → ℚ) : IsTotal String (siblingLE value) := ⟨by
  intro a b
  rcases lt_trichotomy (value a) (value b) with h | h | h
  · exact Or.inl (Or.inl h)
  · rcases le_total a b with hab | hba
    · exact Or.inl (Or.inr ⟨h, hab⟩)
    · exact Or.inr (Or.inr ⟨h.symm, hba⟩)
  · exact Or.inr (Or.inl h)⟩

instance (value : String → ℚ) : IsTrans String (siblingLE value) := ⟨by
  intro a b c hab hbc
  rcases hab with h1 | ⟨h1, h1b⟩ <;> rcases hbc with h2 | ⟨h2, h2b⟩
  · exact Or.inl (lt_trans h1 h2)
  · exact Or.inl (h2 ▸ h1)
  · exact Or.inl (h1 ▸ h2)
  · exact Or.inr ⟨h1.trans h2, le_trans h1b h2b⟩⟩

instance (value : String → ℚ) : IsAntisymm String (siblingLE value) := ⟨by
  intro a b hab hba
  rcases hab with h1 | ⟨h1, h1b⟩ <;> rcases hba with h2 | ⟨h2, h2b⟩
  · exact absurd h2 (lt_asymm h1)
  · exact absurd h1 (by rw [h2]; exact lt_irrefl _)
  · exact absurd h2 (by rw [h1]; exact lt_irrefl _)
  · exact le_antisymm h1b h2b⟩

/-- The sort value of a sibling (`App.tsx` lines 991-994): its explicit
childrenOrder rank when numeric, else its fallback index in the column's
sibling list (`?? 0` for names outside it). -/
def siblingValue (co : List (String × ℚ)) (sic : List String) (n : String) : ℚ :=
  match lookupA co n with
  | some o => o
  | none => if n ∈ sic then (sic.indexOf n : ℚ) else 0

/-- The node's sibling group within its own column: the column's names that
are children of the node's dominant parent ([] when any lookup fails). -/
def siblingsInColumnOf (pg : ParentGroups) (cols : LayoutColumns) (nodeName : String) :
    List String :=
  match lookupA pg.parentByNode nodeName with
  | none => []
  | some parent =>
    match lookupA pg.parentChildren parent with
    | none => []
    | some siblings =>
      match lookupA cols.columnByName nodeName with
      | none => []
      | some columnKey =>
        match lookupA cols.columns columnKey with
        | none => []
        | some columnList => columnList.filter (fun n => n ∈ siblings)

/-- `getSiblingOrder` from `src/App.tsx` lines 965-1000, with the d3 layout
abstracted as `LayoutColumns`; the JavaScript `Array.prototype.sort` under a
comparator that is a total order produces the unique sorted permutation,
embedded as `List.insertionSort` under `siblingLE`. -/
def getSiblingOrder (pg : ParentGroups) (cols : LayoutColumns)
    (settings : List (String × NodeSettings)) (nodeName : String) :
    Option (String × List String) :=
  match lookupA pg.parentByNode nodeName with
  | none => none
  | some parent =>
    match lookupA pg.parentChildren parent with
    | none => none
    | some siblings =>
      if siblings.length ≤ 1 then none
      else
        match lookupA cols.columnByName nodeName with
        | none => none
        | some columnKey =>
          match lookupA cols.columns columnKey with
          | none => none
          | some columnList =>
            if columnList.length ≤ 1 then none
            else
              if (columnList.filter (fun n => n ∈ siblings)).length ≤ 1 then none
              else
                some (parent,
                  List.insertionSort
                    (siblingLE (siblingValue
                      (((lookupA settings parent).getD {}).childrenOrder)
                      (columnList.filter (fun n => n ∈ siblings))))
                    (columnList.filter (fun n => n ∈ siblings)))

/-- The `updatedOrder.forEach((name, index) => { childrenOrder[name] = index })`
loop of `moveNodeByDirection` (`src/App.tsx` lines 1021-1023). -/
def writeRanks (uo : List String) (k : Nat) (m : List (String × ℚ)) : List (String × ℚ) :=
  match uo with
  | [] => m
  | n :: rest => writeRanks rest (k + 1) (assocSet n (k : ℚ) m)

inductive MoveDir where
  | up
  | down
deriving DecidableEq, Repr

/-- `moveNodeByDirection` from `src/App.tsx` lines 1002-1030. -/
def moveNodeByDirection (pg : ParentGroups) (cols : LayoutColumns)
    (settings : List (String × NodeSettings)) (nodeName : String) (dir : MoveDir) :
    List (String × NodeSettings) :=
  match getSiblingOrder pg cols settings nodeName with
  | none => settings
  | some (parent, siblingOrder) =>
      if nodeName ∈ siblingOrder then
        let idx := siblingOrder.indexOf nodeName
        let targetIdx : Int := match dir with
          | MoveDir.up => (idx : Int) - 1
          | MoveDir.down => (idx : Int) + 1
        if targetIdx < 0 ∨ (siblingOrder.length : Int) ≤ targetIdx then settings
        else
          let t := targetIdx.toNat
          let swapWith := siblingOrder.getD t ""
          let updatedOrder := (siblingOrder.set t nodeName).set idx swapWith
          let parentSettings := (lookupA settings parent).getD {}
          assocSet parent
            { parentSettings with
              childrenOrder := writeRanks updatedOrder 0 parentSettings.childrenOrder }
            settings
      else settings

theorem lookupA_writeRanks_not_mem (uo : List String) (k : Nat) (m : List (String × ℚ))
    (n : String) (hn : n ∉ uo) : lookupA (writeRanks uo k m) n = lookupA m n := by
  induction uo generalizing k m with
  | nil => rfl
  | cons a rest ih =>
      have hna : n ≠ a := fun h => hn (h ▸ List.mem_cons_self a rest)
      rw [writeRanks, ih (k + 1) (assocSet a (k : ℚ) m) (fun h => hn (List.mem_cons_of_mem a h)),
        lookupA_assocSet_ne _ _ _ _ hna]

theorem lookupA_writeRanks_mem (uo : List String) (k : Nat) (m : List (String × ℚ))
    (n : String) (hnd : uo.Nodup) (hm : n ∈ uo) :
    lookupA (writeRanks uo k m) n = some ((k + uo.indexOf n : Nat) : ℚ) := by
  induction uo generalizing k m with
  | nil => cases hm
  | cons a rest ih =>
      rw [writeRanks]
      by_cases ha : n = a
      · subst ha
        have hnot : n ∉ rest := (List.nodup_cons.mp hnd).1
        rw [lookupA_writeRanks_not_mem rest (k + 1) _ n hnot, lookupA_assocSet_self]
        simp [List.indexOf_cons_self]
      · have hm2 : n ∈ rest := (List.mem_cons.mp hm).resolve_left ha
        rw [ih (k + 1) _ (List.nodup_cons.mp hnd).2 hm2,
          List.indexOf_cons_ne rest (fun h => ha h.symm)]
        have harith : k + 1 + rest.indexOf n = k + (rest.indexOf n + 1) := by omega
        rw [harith]

theorem cons_set_perm {α : Type} (t : List α) (m : Nat) (hm : m < t.length) (c : α) :
    (t[m] :: t.set m c).Perm (c :: t) := by
  induction t generalizing m with
  | nil => simp at hm
  | cons d s ih =>
      cases m with
      | zero =>
          simp only [List.getElem_cons_zero, List.set_cons_zero]
          exact List.Perm.swap c d s
      | succ m =>
          have hm2 : m < s.length := by simpa using hm
          simp only [List.getElem_cons_succ, List.set_cons_succ]
          exact ((List.Perm.swap d (s[m]) (s.set m c)).trans
            (List.Perm.cons d (ih m hm2))).trans (List.Perm.swap c d s)

theorem set_set_swap_perm {α : Type} (l : List α) (i j : Nat) (hi : i < l.length)
    (hj : j < l.length) :
    ((l.set i (l[j])).set j (l[i])).Perm l := by
  induction l generalizing i j with
  | nil => simp at hi
  | cons c t ih =>
      cases i with
      | zero =>
          cases j with
          | zero =>
              simp only [List.getElem_cons_zero, List.set_cons_zero]
              exact List.Perm.refl _
          | succ j =>
              have hj2 : j < t.length := by simpa using hj
              simp only [List.getElem_cons_zero, List.getElem_cons_succ, List.set_cons_zero,
                List.set_cons_succ]
              exact cons_set_perm t j hj2 c
      | succ i =>
          have hi2 : i < t.length := by simpa using hi
          cases j with
          | zero =>
              simp only [List.getElem_cons_zero, List.getElem_cons_succ, List.set_cons_succ,
                List.set_cons_zero]
              exact cons_set_perm t i hi2 c
          | succ j =>
              have hj2 : j < t.length := by simpa using hj
              simp only [List.getElem_cons_succ, List.set_cons_succ]
              exact List.Perm.cons c (ih i j hi2 hj2)

theorem nodup_indexOf_getElem {α : Type} [DecidableEq α] (l : List α) (hnd : l.Nodup)
    (i : Nat) (hi : i < l.length) : l.indexOf (l[i]) = i := by
  have hmem : l[i] ∈ l := List.getElem_mem hi
  have hlt : l.indexOf (l[i]) < l.length := List.indexOf_lt_length.mpr hmem
  have hh : l[l.indexOf (l[i])] = l[i] := List.getElem_indexOf hlt
  exact (List.Nodup.getElem_inj_iff hnd).mp hh

theorem sorted_by_index (l : List String) (hnd : l.Nodup) (value : String → ℚ)
    (hv : ∀ n ∈ l, value n = (l.indexOf n : ℚ)) :
    List.Sorted (siblingLE value) l := by
  apply List.pairwise_iff_getElem.mpr
  intro i j hi hj hij
  left
  rw [hv _ (List.getElem_mem hi), hv _ (List.getElem_mem hj),
    nodup_indexOf_getElem l hnd i hi, nodup_indexOf_getElem l hnd j hj]
  exact_mod_cast hij

theorem getSiblingOrder_eq (pg : ParentGroups) (cols : LayoutColumns)
    (settings : List (String × NodeSettings)) (nodeName parent : String)
    (siblings : List String) (ck : Nat) (columnList : List String)
    (h1 : lookupA pg.parentByNode nodeName = some parent)
    (h2 : lookupA pg.parentChildren parent = some siblings)
    (h3 : ¬ siblings.length ≤ 1)
    (h4 : lookupA cols.columnByName nodeName = some ck)
    (h5 : lookupA cols.columns ck = some columnList)
    (h6 : ¬ columnList.length ≤ 1)
    (h7 : ¬ (columnList.filter (fun n => n ∈ siblings)).length ≤ 1) :
    getSiblingOrder pg cols settings nodeName
      = some (parent,
          List.insertionSort
            (siblingLE (siblingValue
              (((lookupA settings parent).getD {}).childrenOrder)
              (columnList.filter (fun n => n ∈ siblings))))
            (columnList.filter (fun n => n ∈ siblings))) := by
  simp only [getSiblingOrder, h1, h2, h4, h5]
  rw [if_neg h3, if_neg h6, if_neg h7]

theorem siblingsInColumnOf_eq (pg : ParentGroups) (cols : LayoutColumns)
    (nodeName parent : String) (siblings : List String) (ck : Nat) (columnList : List String)
    (h1 : lookupA pg.parentByNode nodeName = some parent)
    (h2 : lookupA pg.parentChildren parent = some siblings)
    (h4 : lookupA cols.columnByName nodeName = some ck)
    (h5 : lookupA cols.columns ck = some columnList) :
    siblingsInColumnOf pg cols nodeName = columnList.filter (fun n => n ∈ siblings) := by
  simp only [siblingsInColumnOf, h1, h2, h4, h5]

theorem getSiblingOrder_some_inv (pg : ParentGroups) (cols : LayoutColumns)
    (settings : List (String × NodeSettings)) (nodeName parent : String)
    (order : List String)
    (h : getSiblingOrder pg cols settings nodeName = some (parent, order)) :
    lookupA pg.parentByNode nodeName = some parent
    ∧ ∃ siblings ck columnList,
        lookupA pg.parentChildren parent = some siblings
        ∧ ¬ siblings.length ≤ 1
        ∧ lookupA cols.columnByName nodeName = some ck
        ∧ lookupA cols.columns ck = some columnList
        ∧ ¬ columnList.length ≤ 1
        ∧ ¬ (columnList.filter (fun n => n ∈ siblings)).length ≤ 1
        ∧ order = List.insertionSort
            (siblingLE (siblingValue
              (((lookupA settings parent).getD {}).childrenOrder)
              (columnList.filter (fun n => n ∈ siblings))))
            (columnList.filter (fun n => n ∈ siblings)) := by
  unfold getSiblingOrder at h
  cases h1 : lookupA pg.parentByNode nodeName with
  | none => simp only [h1] at h; exact absurd h (by simp)
  | some p =>
  simp only [h1] at h
  cases h2 : lookupA pg.parentChildren p with
  | none => simp only [h2] at h; exact absurd h (by simp)
  | some siblings =>
  simp only [h2] at h
  by_cases h3 : siblings.length ≤ 1
  · rw [if_pos h3] at h; exact absurd h (by simp)
  · rw [if_neg h3] at h
    cases h4 : lookupA cols.columnByName nodeName with
    | none => simp only [h4] at h; exact absurd h (by simp)
    | some ck =>
    simp only [h4] at h
    cases h5 : lookupA cols.columns ck with
    | none => simp only [h5] at h; exact absurd h (by simp)
    | some columnList =>
    simp only [h5] at h
    by_cases h6 : columnList.length ≤ 1
    · rw [if_pos h6] at h; exact absurd h (by simp)
    · rw [if_neg h6] at h
      by_cases h7 : (columnList.filter (fun n => n ∈ siblings)).length ≤ 1
      · rw [if_pos h7] at h; exact absurd h (by simp)
      · rw [if_neg h7] at h
        have hpair := Option.some.inj h
        have hp : p = parent := congrArg Prod.fst hpair
        have hord := congrArg Prod.snd hpair
        subst hp
        exact ⟨rfl, siblings, ck, columnList, h2, h3, rfl, h5, h6, h7, hord.symm⟩

theorem moveNode_none (pg : ParentGroups) (cols : LayoutColumns)
    (settings : List (String × NodeSettings)) (nodeName : String) (dir : MoveDir)
    (h : getSiblingOrder pg cols settings nodeName = none) :
    moveNodeByDirection pg cols settings nodeName dir = settings := by
  simp only [moveNodeByDirection, h]

theorem moveNode_up_boundary (pg : ParentGroups) (cols : LayoutColumns)
    (settings : List (String × NodeSettings)) (nodeName parent : String) (order : List String)
    (h : getSiblingOrder pg cols settings nodeName = some (parent, order))
    (hidx : order.indexOf nodeName = 0) :
    moveNodeByDirection pg cols settings nodeName MoveDir.up = settings := by
  simp only [moveNodeByDirection, h]
  by_cases hmem : nodeName ∈ order
  · have hcond : ((order.indexOf nodeName : Int) - 1 < 0
        ∨ (order.length : Int) ≤ (order.indexOf nodeName : Int) - 1) := by omega
    rw [if_pos hmem, if_pos hcond]
  · rw [if_neg hmem]

theorem moveNode_down_boundary (pg : ParentGroups) (cols : LayoutColumns)
    (settings : List (String × NodeSettings)) (nodeName parent : String) (order : List String)
    (h : getSiblingOrder pg cols settings nodeName = some (parent, order))
    (hidx : order.length ≤ order.indexOf nodeName + 1) :
    moveNodeByDirection pg cols settings nodeName MoveDir.down = settings := by
  simp only [moveNodeByDirection, h]
  by_cases hmem : nodeName ∈ order
  · have hcond : ((order.indexOf nodeName : Int) + 1 < 0
        ∨ (order.length : Int) ≤ (order.indexOf nodeName : Int) + 1) := by omega
    rw [if_pos hmem, if_pos hcond]
  · rw [if_neg hmem]

theorem moveNode_up_eq (pg : ParentGroups) (cols : LayoutColumns)
    (settings : List (String × NodeSettings)) (nodeName parent : String) (order : List String)
    (h : getSiblingOrder pg cols settings nodeName = some (parent, order))
    (hmem : nodeName ∈ order) (hpos : 0 < order.indexOf nodeName) :
    moveNodeByDirection pg cols settings nodeName MoveDir.up
      = assocSet parent
          { (lookupA settings parent).getD {} with
            childrenOrder := writeRanks
              ((order.set (order.indexOf nodeName - 1) nodeName).set (order.indexOf nodeName)
                (order.getD (order.indexOf nodeName - 1) ""))
              0 ((lookupA settings parent).getD {}).childrenOrder }
          settings := by
  have hlt : order.indexOf nodeName < order.length := List.indexOf_lt_length.mpr hmem
  have hcond : ¬ ((order.indexOf nodeName : Int) - 1 < 0
      ∨ (order.length : Int) ≤ (order.indexOf nodeName : Int) - 1) := by omega
  have ht : ((order.indexOf nodeName : Int) - 1).toNat = order.indexOf nodeName - 1 := by omega
  simp only [moveNodeByDirection, h]
  rw [if_pos hmem, if_neg hcond, ht]

theorem moveNode_down_eq (pg : ParentGroups) (cols : LayoutColumns)
    (settings : List (String × NodeSettings)) (nodeName parent : String) (order : List String)
    (h : getSiblingOrder pg cols settings nodeName = some (parent, order))
    (hmem : nodeName ∈ order) (hlt2 : order.indexOf nodeName + 1 < order.length) :
    moveNodeByDirection pg cols settings nodeName MoveDir.down
      = assocSet parent
          { (lookupA settings parent).getD {} with
            childrenOrder := writeRanks
              ((order.set (order.indexOf nodeName + 1) nodeName).set (order.indexOf nodeName)
                (order.getD (order.indexOf nodeName + 1) ""))
              0 ((lookupA settings parent).getD {}).childrenOrder }
          settings := by
  have hcond : ¬ ((order.indexOf nodeName : Int) + 1 < 0
      ∨ (order.length : Int) ≤ (order.indexOf nodeName : Int) + 1) := by omega
  have ht : ((order.indexOf nodeName : Int) + 1).toNat = order.indexOf nodeName + 1 := by omega
  simp only [moveNodeByDirection, h]
  rw [if_pos hmem, if_neg hcond, ht]

theorem getSiblingOrder_after_write (pg : ParentGroups) (cols : LayoutColumns)
    (settings : List (String × NodeSettings)) (nodeName parent : String)
    (siblings : List String) (ck : Nat) (columnList : List String)
    (uo : List String) (ps : NodeSettings)
    (h1 : lookupA pg.parentByNode nodeName = some parent)
    (h2 : lookupA pg.parentChildren parent = some siblings)
    (h3 : ¬ siblings.length ≤ 1)
    (h4 : lookupA cols.columnByName nodeName = some ck)
    (h5 : lookupA cols.columns ck = some columnList)
    (h6 : ¬ columnList.length ≤ 1)
    (h7 : ¬ (columnList.filter (fun n => n ∈ siblings)).length ≤ 1)
    (hperm : uo.Perm (columnList.filter (fun n => n ∈ siblings)))
    (hnd : uo.Nodup) :
    getSiblingOrder pg cols
        (assocSet parent { ps with childrenOrder := writeRanks uo 0 ps.childrenOrder } settings)
        nodeName
      = some (parent, uo) := by
  rw [getSiblingOrder_eq pg cols _ nodeName parent siblings ck columnList h1 h2 h3 h4 h5 h6 h7]
  refine congrArg some (congrArg (Prod.mk parent) ?_)
  rw [lookupA_assocSet_self]
  simp only [Option.getD_some]
  apply List.eq_of_perm_of_sorted ((List.perm_insertionSort _ _).trans hperm.symm)
    (List.sorted_insertionSort _ _)
  apply sorted_by_index uo hnd
  intro n hn
  unfold siblingValue
  rw [lookupA_writeRanks_mem uo 0 ps.childrenOrder n hnd hn]
  simp

theorem moveUpDown_roundtrip (pg : ParentGroups) (cols : LayoutColumns)
    (settings : List (String × NodeSettings)) (nodeName parent : String) (order : List String)
    (h : getSiblingOrder pg cols settings nodeName = some (parent, order))
    (hmem : nodeName ∈ order) (hnd : order.Nodup) (hpos : 0 < order.indexOf nodeName) :
    getSiblingOrder pg cols
        (moveNodeByDirection pg cols
          (moveNodeByDirection pg cols settings nodeName MoveDir.up) nodeName MoveDir.down)
        nodeName
      = some (parent, order) := by
  obtain ⟨hpbn, siblings, ck, columnList, h2, h3, h4, h5, h6, h7, hord⟩ :=
    getSiblingOrder_some_inv pg cols settings nodeName parent order h
  have hlt : order.indexOf nodeName < order.length := List.indexOf_lt_length.mpr hmem
  have hlt1 : order.indexOf nodeName - 1 < order.length := by omega
  have hpermOS : order.Perm (columnList.filter (fun n => n ∈ siblings)) := by
    rw [hord]; exact List.perm_insertionSort _ _
  have hnn : order[order.indexOf nodeName] = nodeName := List.getElem_indexOf hlt
  have hgd : order.getD (order.indexOf nodeName - 1) ""
      = order[order.indexOf nodeName - 1] := List.getD_eq_getElem order "" hlt1
  have hpermUO : ((order.set (order.indexOf nodeName - 1) nodeName).set (order.indexOf nodeName)
      (order.getD (order.indexOf nodeName - 1) "")).Perm order := by
    have key := set_set_swap_perm order (order.indexOf nodeName - 1) (order.indexOf nodeName)
      hlt1 hlt
    rw [hnn] at key
    rw [hgd]
    exact key
  have hndUO : ((order.set (order.indexOf nodeName - 1) nodeName).set (order.indexOf nodeName)
      (order.getD (order.indexOf nodeName - 1) "")).Nodup := hpermUO.nodup_iff.mpr hnd
  have hlenUO : ((order.set (order.indexOf nodeName - 1) nodeName).set (order.indexOf nodeName)
      (order.getD (order.indexOf nodeName - 1) "")).length = order.length := by simp
  have hlt1b : order.indexOf nodeName - 1
      < ((order.set (order.indexOf nodeName - 1) nodeName).set (order.indexOf nodeName)
        (order.getD (order.indexOf nodeName - 1) "")).length := by
    rw [hlenUO]
    omega
  have huo_at : ((order.set (order.indexOf nodeName - 1) nodeName).set (order.indexOf nodeName)
      (order.getD (order.indexOf nodeName - 1) ""))[order.indexOf nodeName - 1]
      = nodeName := by
    have hc1 : ¬ (order.indexOf nodeName = order.indexOf nodeName - 1) := by omega
    simp [List.getElem_set, hc1]
  have hidxUO : ((order.set (order.indexOf nodeName - 1) nodeName).set (order.indexOf nodeName)
      (order.getD (order.indexOf nodeName - 1) "")).indexOf nodeName
      = order.indexOf nodeName - 1 := by
    have hkey := nodup_indexOf_getElem
      ((order.set (order.indexOf nodeName - 1) nodeName).set (order.indexOf nodeName)
        (order.getD (order.indexOf nodeName - 1) "")) hndUO (order.indexOf nodeName - 1) hlt1b
    rw [huo_at] at hkey
    exact hkey
  have hmemUO : nodeName ∈ ((order.set (order.indexOf nodeName - 1) nodeName).set
      (order.indexOf nodeName) (order.getD (order.indexOf nodeName - 1) "")) :=
    hpermUO.mem_iff.mpr hmem
  have hstep1 := moveNode_up_eq pg cols settings nodeName parent order h hmem hpos
  have hstep2 : getSiblingOrder pg cols
      (moveNodeByDirection pg cols settings nodeName MoveDir.up) nodeName
      = some (parent, (order.set (order.indexOf nodeName - 1) nodeName).set
          (order.indexOf nodeName) (order.getD (order.indexOf nodeName - 1) "")) := by
    rw [hstep1]
    exact getSiblingOrder_after_write pg cols settings nodeName parent siblings ck columnList
      _ _ hpbn h2 h3 h4 h5 h6 h7 (hpermUO.trans hpermOS) hndUO
  have hlt2 : ((order.set (order.indexOf nodeName - 1) nodeName).set (order.indexOf nodeName)
      (order.getD (order.indexOf nodeName - 1) "")).indexOf nodeName + 1
      < ((order.set (order.indexOf nodeName - 1) nodeName).set (order.indexOf nodeName)
        (order.getD (order.indexOf nodeName - 1) "")).length := by
    rw [hidxUO, hlenUO]
    omega
  have hstep3 := moveNode_down_eq pg cols
    (moveNodeByDirection pg cols settings nodeName MoveDir.up) nodeName parent
    ((order.set (order.indexOf nodeName - 1) nodeName).set (order.indexOf nodeName)
      (order.getD (order.indexOf nodeName - 1) ""))
    hstep2 hmemUO hlt2
  have hgd2 : ((order.set (order.indexOf nodeName - 1) nodeName).set (order.indexOf nodeName)
      (order.getD (order.indexOf nodeName - 1) "")).getD
      (((order.set (order.indexOf nodeName - 1) nodeName).set (order.indexOf nodeName)
        (order.getD (order.indexOf nodeName - 1) "")).indexOf nodeName + 1) ""
      = order[order.indexOf nodeName - 1] := by
    rw [hidxUO]
    have harith : order.indexOf nodeName - 1 + 1 = order.indexOf nodeName := by omega
    rw [harith, List.getD_eq_getElem _ "" (by rw [hlenUO]; omega)]
    simp [List.getElem_set]
    rw [List.getElem?_eq_getElem hlt1]
    rfl
  have huo2 : (((order.set (order.indexOf nodeName - 1) nodeName).set (order.indexOf nodeName)
        (order.getD (order.indexOf nodeName - 1) "")).set
        (((order.set (order.indexOf nodeName - 1) nodeName).set (order.indexOf nodeName)
          (order.getD (order.indexOf nodeName - 1) "")).indexOf nodeName + 1) nodeName).set
      (((order.set (order.indexOf nodeName - 1) nodeName).set (order.indexOf nodeName)
        (order.getD (order.indexOf nodeName - 1) "")).indexOf nodeName)
      (((order.set (order.indexOf nodeName - 1) nodeName).set (order.indexOf nodeName)
        (order.getD (order.indexOf nodeName - 1) "")).getD
        (((order.set (order.indexOf nodeName - 1) nodeName).set (order.indexOf nodeName)
          (order.getD (order.indexOf nodeName - 1) "")).indexOf nodeName + 1) "")
      = order := by
    rw [hgd2, hidxUO]
    have harith : order.indexOf nodeName - 1 + 1 = order.indexOf nodeName := by omega
    rw [harith]
    apply List.ext_getElem
    · simp
    · intro i hi1 hi2
      simp only [List.getElem_set]
      by_cases he1 : i = order.indexOf nodeName - 1
      · have hc1 : order.indexOf nodeName - 1 = i := he1.symm
        rw [if_pos hc1]
        subst he1
        rfl
      · have hc1 : ¬ (order.indexOf nodeName - 1 = i) := fun hh => he1 hh.symm
        by_cases he2 : i = order.indexOf nodeName
        · have hc2 : order.indexOf nodeName = i := he2.symm
          rw [if_neg hc1, if_pos hc2]
          subst he2
          exact hnn.symm
        · have hc2 : ¬ (order.indexOf nodeName = i) := fun hh => he2 hh.symm
          rw [if_neg hc1, if_neg hc2, if_neg hc2, if_neg hc1]
  rw [hstep3, huo2]
  exact getSiblingOrder_after_write pg cols _ nodeName parent siblings ck columnList
    order _ hpbn h2 h3 h4 h5 h6 h7 hpermOS hnd

theorem swapAdjacent_perm (order : List String) (nodeName : String)
    (hmem : nodeName ∈ order) (hpos : 0 < order.indexOf nodeName) :
    ((order.set (order.indexOf nodeName - 1) nodeName).set (order.indexOf nodeName)
      (order.getD (order.indexOf nodeName - 1) "")).Perm order := by
  have hlt : order.indexOf nodeName < order.length := List.indexOf_lt_length.mpr hmem
  have hlt1 : order.indexOf nodeName - 1 < order.length := by omega
  have hnn : order[order.indexOf nodeName] = nodeName := List.getElem_indexOf hlt
  have hgd : order.getD (order.indexOf nodeName - 1) ""
      = order[order.indexOf nodeName - 1] := List.getD_eq_getElem order "" hlt1
  have key := set_set_swap_perm order (order.indexOf nodeName - 1) (order.indexOf nodeName)
    hlt1 hlt
  rw [hnn] at key
  rw [hgd]
  exact key

/-- C6: `moveNodeByDirection` is a no-op when the node has no dominant
parent, when its sibling group within its column has at most one member, or
when the node is already at the boundary in the requested direction; for a
movable node it swaps the node with its immediate neighbour and persists
the resulting order into the parent's `childrenOrder` renumbered
contiguously from 0 (each name of the swapped order maps to its position),
leaving every other key of the settings untouched; and move-up followed by
move-down on the same node restores the original sibling order. -/
theorem moveNodeByDirection_correct (pg : ParentGroups) (cols : LayoutColumns)
    (settings : List (String × NodeSettings)) (nodeName : String) :
    (lookupA pg.parentByNode nodeName = none →
      ∀ dir, moveNodeByDirection pg cols settings nodeName dir = settings)
    ∧ ((siblingsInColumnOf pg cols nodeName).length ≤ 1 →
      ∀ dir, moveNodeByDirection pg cols settings nodeName dir = settings)
    ∧ (∀ parent order, getSiblingOrder pg cols settings nodeName = some (parent, order) →
        order.indexOf nodeName = 0 →
        moveNodeByDirection pg cols settings nodeName MoveDir.up = settings)
    ∧ (∀ parent order, getSiblingOrder pg cols settings nodeName = some (parent, order) →
        order.length ≤ order.indexOf nodeName + 1 →
        moveNodeByDirection pg cols settings nodeName MoveDir.down = settings)
    ∧ (∀ parent order, getSiblingOrder pg cols settings nodeName = some (parent, order) →
        nodeName ∈ order → order.Nodup → 0 < order.indexOf nodeName →
        (∀ name ∈ ((order.set (order.indexOf nodeName - 1) nodeName).set (order.indexOf nodeName)
            (order.getD (order.indexOf nodeName - 1) "")),
          lookupChildOrder (moveNodeByDirection pg cols settings nodeName MoveDir.up) parent name
            = some ((((order.set (order.indexOf nodeName - 1) nodeName).set (order.indexOf nodeName)
                (order.getD (order.indexOf nodeName - 1) "")).indexOf name : ℚ)))
        ∧ (∀ k, k ≠ parent →
            lookupA (moveNodeByDirection pg cols settings nodeName MoveDir.up) k
              = lookupA settings k))
    ∧ (∀ parent order, getSiblingOrder pg cols settings nodeName = some (parent, order) →
        nodeName ∈ order → order.Nodup → 0 < order.indexOf nodeName →
        getSiblingOrder pg cols
            (moveNodeByDirection pg cols
              (moveNodeByDirection pg cols settings nodeName MoveDir.up) nodeName MoveDir.down)
            nodeName
          = some (parent, order)) := by
  refine ⟨?_, ?_, ?_, ?_, ?_, ?_⟩
  · intro hnone dir
    exact moveNode_none pg cols settings nodeName dir (by simp only [getSiblingOrder, hnone])
  · intro hlen dir
    cases hs : getSiblingOrder pg cols settings nodeName with
    | none => exact moveNode_none pg cols settings nodeName dir hs
    | some po =>
        obtain ⟨parent, order⟩ := po
        obtain ⟨hpbn, siblings, ck, columnList, h2, h3, h4, h5, h6, h7, hord⟩ :=
          getSiblingOrder_some_inv pg cols settings nodeName parent order hs
        rw [siblingsInColumnOf_eq pg cols nodeName parent siblings ck columnList
          hpbn h2 h4 h5] at hlen
        exact absurd hlen h7
  · intro parent order hsib hidx
    exact moveNode_up_boundary pg cols settings nodeName parent order hsib hidx
  · intro parent order hsib hidx
    exact moveNode_down_boundary pg cols settings nodeName parent order hsib hidx
  · intro parent order hsib hmem hnd hpos
    have hperm := swapAdjacent_perm order nodeName hmem hpos
    have hndUO := hperm.nodup_iff.mpr hnd
    constructor
    · intro name hname
      rw [moveNode_up_eq pg cols settings nodeName parent order hsib hmem hpos]
      simp only [lookupChildOrder, lookupA_assocSet_self]
      rw [lookupA_writeRanks_mem _ 0 _ name hndUO hname]
      simp
    · intro k hk
      rw [moveNode_up_eq pg cols settings nodeName parent order hsib hmem hpos]
      exact lookupA_assocSet_ne _ _ _ _ hk
  · intro parent order hsib hmem hnd hpos
    exact moveUpDown_roundtrip pg cols settings nodeName parent order hsib hmem hnd hpos

/-- Witness for C6: parent P with children A and B sharing a column; moving
B up and then down restores the sibling order [A, B]. -/
theorem moveNodeByDirection_correct_witness :
    getSiblingOrder
        { parentByNode := [("A", "P"), ("B", "P")], parentChildren := [("P", ["A", "B"])], bestValue := [("A", 1), ("B", 1)] }
        { columnByName := [("A", 1), ("B", 1)], columns := [(1, ["A", "B"])] }
        (moveNodeByDirection
          { parentByNode := [("A", "P"), ("B", "P")], parentChildren := [("P", ["A", "B"])], bestValue := [("A", 1), ("B", 1)] }
          { columnByName := [("A", 1), ("B", 1)], columns := [(1, ["A", "B"])] }
          (moveNodeByDirection
            { parentByNode := [("A", "P"), ("B", "P")], parentChildren := [("P", ["A", "B"])], bestValue := [("A", 1), ("B", 1)] }
            { columnByName := [("A", 1), ("B", 1)], columns := [(1, ["A", "B"])] }
            [] "B" MoveDir.up)
          "B" MoveDir.down)
        "B"
      = some ("P", ["A", "B"]) :=
  (moveNodeByDirection_correct
    { parentByNode := [("A", "P"), ("B", "P")], parentChildren := [("P", ["A", "B"])], bestValue := [("A", 1), ("B", 1)] }
    { columnByName := [("A", 1), ("B", 1)], columns := [(1, ["A", "B"])] }
    [] "B").2.2.2.2.2 "P" ["A", "B"] (by decide) (by decide) (by decide) (by decide)

end SankeyReport
